import Mathlib

/-!
# A lock-free ring buffer (`ring.hpp`): embedding and verified properties

The C++ class `ring<T>` is embedded as a record of its five data members.
Machine integers (`uint32_t`) are natural numbers; every arithmetic operation
the source performs on them is reduced modulo `2^32` explicitly (`add32`,
`sub32`).  Loops are recursive functions over a budget: a loop may repeat its
body at most `fuel` times, and reports `fault.out_of_fuel` if it would need
more.  An element access outside the slab or outside the source table reports
`fault.out_of_bounds`.  Every element assignment `m_buf[idx] = obj_table[i]`
is recorded, in program order, as the pair `(idx, i)`.

The compare-and-swap `atomic32_cmpset` takes a pointer.  Line 168 of the
source hands it the value of `m_prod.head`, not the address of that member:
the function then works on an integer converted to a pointer, which is the
address of no object.  Such an access has no defined result and reports
`fault.wild_pointer`.  No statement of the source writes `m_prod.head` after
construction.

The member functions are first embedded for a single caller, where nothing
else touches the object during a call.  Concurrent callers of
`move_prod_head` are embedded separately, as threads that take atomic steps
under an arbitrary schedule.
-/

namespace RingBuffer

/-! ## Machine arithmetic -/

/-- The modulus of `uint32_t` arithmetic, `2^32`. -/
def U32 : Nat := 4294967296

/-- Addition of two `uint32_t` values. -/
def add32 (a b : Nat) : Nat := (a + b) % U32

/-- Subtraction of two `uint32_t` values (wraps below zero). -/
def sub32 (a b : Nat) : Nat := (a + (U32 - b % U32)) % U32

/-! ## Data model (`ring.hpp` lines 10-43) -/

/-- The `behavior_t` enumeration. -/
inductive behavior_t where
  | FIXED
  | VARIABLE
deriving DecidableEq

/-- The `pointer_pair_t` record: a head and a tail cursor. -/
structure pointer_pair_t where
  head : Nat
  tail : Nat
deriving DecidableEq

/-- The data members of `ring<T>`; `m_buf` is the slab. -/
structure ring (α : Type) where
  m_size : Nat
  m_mask : Nat
  m_buf : List α
  m_prod : pointer_pair_t
  m_cons : pointer_pair_t
deriving DecidableEq

/-- The constant `DEFAULT_SIZE`. -/
def DEFAULT_SIZE : Nat := 4096

/-- The constant `SIZE_MASK`, the largest `uint32_t`. -/
def SIZE_MASK : Nat := 4294967295

/-- Ways in which an execution of the embedded code can fail to produce a value. -/
inductive fault where
  | out_of_fuel
  | out_of_bounds
  | wild_pointer
deriving DecidableEq

/-- The slab under a bulk transfer, with the record of the element
assignments made so far: `(slab index, source index)` in program order. -/
structure xfer (α : Type) where
  m_buf : List α
  stores : List (Nat × Nat)
deriving DecidableEq

/-- What a call of an enqueue operation leaves behind: the object afterwards,
the returned count, and the element assignments it made. -/
structure outcome (α : Type) where
  self : ring α
  ret : Nat
  stores : List (Nat × Nat)
deriving DecidableEq

/-- The ways in which a construction can end without an object:
`InvalidCapacity` is the error the specification names, and no path of the
constructor raises it; `bad_alloc` is the exception of the allocation
`new T[m_size]` on line 117. -/
inductive ctor_error where
  | InvalidCapacity
  | bad_alloc
deriving DecidableEq

/-- Results of fallible executions can be compared. -/
instance instDecidableEqExcept {ε β : Type} [DecidableEq ε] [DecidableEq β] :
    DecidableEq (Except ε β)
  | Except.ok a, Except.ok b =>
    if h : a = b then isTrue (by rw [h]) else isFalse (fun h2 => h (Except.ok.inj h2))
  | Except.error a, Except.error b =>
    if h : a = b then isTrue (by rw [h]) else isFalse (fun h2 => h (Except.error.inj h2))
  | Except.ok _, Except.error _ => isFalse (fun h => Except.noConfusion h)
  | Except.error _, Except.ok _ => isFalse (fun h => Except.noConfusion h)

/-! ## Construction (`ring.hpp` lines 45-49, 110-121) -/

/-- The member function `parse_proper_size`. -/
def parse_proper_size {α : Type} (r : ring α) (size : Nat) : ring α :=
  { r with m_size := size, m_mask := sub32 size 1 }

/-- The constructor `ring(uint32_t ring_size)`: both cursor pairs are
initialised to `(0, 0)`, `parse_proper_size` sets size and mask, and the slab
is allocated with `m_size` default-constructed elements.  The two members
that `parse_proper_size` overwrites start from a placeholder. -/
def ring_ctor {α : Type} [Inhabited α] (ring_size : Nat) : ring α :=
  let r0 : ring α :=
    { m_size := 0, m_mask := 0, m_buf := [], m_prod := ⟨0, 0⟩, m_cons := ⟨0, 0⟩ }
  let r1 := parse_proper_size r0 ring_size
  { r1 with m_buf := List.replicate r1.m_size default }

/-- The default constructor `ring()`, which delegates to `ring(DEFAULT_SIZE)`. -/
def ring_ctor_default {α : Type} [Inhabited α] : ring α :=
  ring_ctor DEFAULT_SIZE

/-- The result of a constructor call as the caller sees it: an object or an
error.  The constructor body has no validation and no `throw`; the one
statement of it that can fail is the allocation `new T[m_size]` on line 117,
and `heap_ok` says whether that allocation succeeds. -/
def ring_construct {α : Type} [Inhabited α] (heap_ok : Bool) (ring_size : Nat) :
    Except ctor_error (ring α) :=
  if heap_ok then Except.ok (ring_ctor ring_size) else Except.error ctor_error.bad_alloc

/-! ## Bulk transfer (`ring.hpp` lines 50-81) -/

/-- One element assignment `m_buf[idx] = obj_table[i]`. -/
def assign {α : Type} (obj_table : List α) (s : xfer α) (idx i : Nat) :
    Except fault (xfer α) :=
  if idx < s.m_buf.length then
    match obj_table[i]? with
    | some v => Except.ok { m_buf := s.m_buf.set idx v, stores := s.stores ++ [(idx, i)] }
    | none => Except.error fault.out_of_bounds
  else Except.error fault.out_of_bounds

/-- The loop of lines 57-64: four elements a group, while
`i < (n & ~(unsigned)0x3)`. -/
def enqueue_objs_groups {α : Type} (obj_table : List α) (n : Nat) :
    Nat → Nat → Nat → xfer α → Except fault (Nat × Nat × xfer α)
  | 0, i, idx, s =>
    if i < (n &&& 4294967292) then Except.error fault.out_of_fuel
    else Except.ok (i, idx, s)
  | fuel + 1, i, idx, s =>
    if i < (n &&& 4294967292) then do
      let s ← assign obj_table s idx i
      let s ← assign obj_table s (add32 idx 1) (add32 i 1)
      let s ← assign obj_table s (add32 idx 2) (add32 i 2)
      let s ← assign obj_table s (add32 idx 3) (add32 i 3)
      enqueue_objs_groups obj_table n fuel (add32 i 4) (add32 idx 4) s
    else Except.ok (i, idx, s)

/-- The statement under `case 1:` of the switch of lines 65-72. -/
def enqueue_objs_case1 {α : Type} (obj_table : List α) (i idx : Nat) (s : xfer α) :
    Except fault (Nat × Nat × xfer α) := do
  let s ← assign obj_table s idx i
  pure (add32 i 1, add32 idx 1, s)

/-- The statement under `case 2:`, falling through to `case 1:`. -/
def enqueue_objs_case2 {α : Type} (obj_table : List α) (i idx : Nat) (s : xfer α) :
    Except fault (Nat × Nat × xfer α) := do
  let s ← assign obj_table s idx i
  enqueue_objs_case1 obj_table (add32 i 1) (add32 idx 1) s

/-- The statement under `case 3:`, falling through to `case 2:`. -/
def enqueue_objs_case3 {α : Type} (obj_table : List α) (i idx : Nat) (s : xfer α) :
    Except fault (Nat × Nat × xfer α) := do
  let s ← assign obj_table s idx i
  enqueue_objs_case2 obj_table (add32 i 1) (add32 idx 1) s

/-- The `switch (n & 0x3)` of lines 65-72. -/
def enqueue_objs_switch {α : Type} (obj_table : List α) (n i idx : Nat) (s : xfer α) :
    Except fault (Nat × Nat × xfer α) :=
  if (n &&& 3) = 3 then enqueue_objs_case3 obj_table i idx s
  else if (n &&& 3) = 2 then enqueue_objs_case2 obj_table i idx s
  else if (n &&& 3) = 1 then enqueue_objs_case1 obj_table i idx s
  else Except.ok (i, idx, s)

/-- The loop of lines 76-77: copy up to the end of the slab, while
`idx < m_size`. -/
def enqueue_objs_to_end {α : Type} (obj_table : List α) (m_size : Nat) :
    Nat → Nat → Nat → xfer α → Except fault (Nat × Nat × xfer α)
  | 0, i, idx, s =>
    if idx < m_size then Except.error fault.out_of_fuel
    else Except.ok (i, idx, s)
  | fuel + 1, i, idx, s =>
    if idx < m_size then do
      let s ← assign obj_table s idx i
      enqueue_objs_to_end obj_table m_size fuel (add32 i 1) (add32 idx 1) s
    else Except.ok (i, idx, s)

/-- The loop of lines 78-79: copy the remainder from the start of the slab,
while `i < n`. -/
def enqueue_objs_from_start {α : Type} (obj_table : List α) (n : Nat) :
    Nat → Nat → Nat → xfer α → Except fault (Nat × Nat × xfer α)
  | 0, i, idx, s =>
    if i < n then Except.error fault.out_of_fuel
    else Except.ok (i, idx, s)
  | fuel + 1, i, idx, s =>
    if i < n then do
      let s ← assign obj_table s idx i
      enqueue_objs_from_start obj_table n fuel (add32 i 1) (add32 idx 1) s
    else Except.ok (i, idx, s)

/-- The member function `enqueue_objs`.  Returns the object with the slab
after the copy, and the element assignments made. -/
def enqueue_objs {α : Type} (fuel : Nat) (r : ring α) (prod_head : Nat)
    (obj_table : List α) (n : Nat) : Except fault (ring α × List (Nat × Nat)) :=
  let i := 0
  let idx := prod_head &&& r.m_mask
  let s : xfer α := { m_buf := r.m_buf, stores := [] }
  if add32 idx n < r.m_size then do
    let (i, idx, s) ← enqueue_objs_groups obj_table n fuel i idx s
    let (_, _, s) ← enqueue_objs_switch obj_table n i idx s
    pure ({ r with m_buf := s.m_buf }, s.stores)
  else do
    let (i, _, s) ← enqueue_objs_to_end obj_table r.m_size fuel i idx s
    let (_, _, s) ← enqueue_objs_from_start obj_table n fuel i 0 s
    pure ({ r with m_buf := s.m_buf }, s.stores)

/-! ## Reservation and publication (`ring.hpp` lines 82-106, 142-171) -/

/-- What a call passes for a parameter of type `volatile uint32_t *`: the
address of the member `m_prod.head`, or an integer converted to a pointer. -/
inductive pointer where
  | to_prod_head
  | from_integer (value : Nat)
deriving DecidableEq

/-- The compare-and-swap `atomic32_cmpset(dst, exp, src)` (`lock cmpxchgl`
on `*dst`, followed by `sete`): the object afterwards and the result flag.
When `dst` is the address of `m_prod.head`, the member is compared with `exp`
and, if equal, replaced by `src`.  When `dst` is an integer converted to a
pointer, it is the address of no object and the access is a fault. -/
def atomic32_cmpset {α : Type} (r : ring α) (dst : pointer) (exp src : Nat) :
    Except fault (ring α × Nat) :=
  match dst with
  | pointer.to_prod_head =>
    if r.m_prod.head = exp then
      Except.ok ({ r with m_prod := { r.m_prod with head := src } }, 1)
    else Except.ok (r, 0)
  | pointer.from_integer _ => Except.error fault.wild_pointer

/-- The member function `update_tail`: spin while `pair.tail != old_val`,
then store `new_val`.  No other thread runs, so a spin re-reads the same
value. -/
def update_tail : Nat → pointer_pair_t → Nat → Nat → Except fault pointer_pair_t
  | 0, pair, old_val, new_val =>
    if pair.tail ≠ old_val then Except.error fault.out_of_fuel
    else Except.ok { pair with tail := new_val }
  | fuel + 1, pair, old_val, new_val =>
    if pair.tail ≠ old_val then update_tail fuel pair old_val new_val
    else Except.ok { pair with tail := new_val }

/-- The member function `move_prod_head`.  The reference parameters
`prod_head` and `prod_next` are passed in and returned; the result is the
object afterwards, the returned count, `prod_head` and `prod_next`.  Line 168
reads `atomic32_cmpset(m_prod.head, prod_head, prod_next)`: the first
argument is the value of the member, so the compare-and-swap receives that
integer as its pointer.  The request `n` is a by-value parameter that lines
163-164 overwrite, so a retry starts from the adjusted count.  The budget
bounds the number of retries of the `do ... while` loop. -/
def move_prod_head {α : Type} :
    Nat → ring α → Nat → Nat → Nat → behavior_t → Except fault (ring α × Nat × Nat × Nat)
  | 0, r, n, _, prod_next, behavior =>
    let prod_head := r.m_prod.head
    let free_space := (sub32 (add32 r.m_size r.m_cons.tail) prod_head) &&& r.m_mask
    let n := if free_space < n then (if behavior = behavior_t.FIXED then 0 else free_space) else n
    if n = 0 then Except.ok (r, n, prod_head, prod_next)
    else
      let prod_next := add32 prod_head n
      match atomic32_cmpset r (pointer.from_integer r.m_prod.head) prod_head prod_next with
      | Except.error e => Except.error e
      | Except.ok (r, success) =>
        if success = 0 then Except.error fault.out_of_fuel
        else Except.ok (r, n, prod_head, prod_next)
  | fuel + 1, r, n, _, prod_next, behavior =>
    let prod_head := r.m_prod.head
    let free_space := (sub32 (add32 r.m_size r.m_cons.tail) prod_head) &&& r.m_mask
    let n := if free_space < n then (if behavior = behavior_t.FIXED then 0 else free_space) else n
    if n = 0 then Except.ok (r, n, prod_head, prod_next)
    else
      let prod_next := add32 prod_head n
      match atomic32_cmpset r (pointer.from_integer r.m_prod.head) prod_head prod_next with
      | Except.error e => Except.error e
      | Except.ok (r, success) =>
        if success = 0 then move_prod_head fuel r n prod_head prod_next behavior
        else Except.ok (r, n, prod_head, prod_next)

/-- The member function `do_enqueue`.  Its two locals are uninitialised in
the source and are not read before `move_prod_head` assigns them. -/
def do_enqueue {α : Type} (fuel : Nat) (r : ring α) (obj_table : List α) (n : Nat)
    (behavior : behavior_t) : Except fault (outcome α) := do
  let (r, n, prod_head, prod_next) ← move_prod_head fuel r n 0 0 behavior
  if n = 0 then
    pure { self := r, ret := 0, stores := [] }
  else do
    let (r, stores) ← enqueue_objs fuel r prod_head obj_table n
    let m_prod ← update_tail fuel r.m_prod prod_head prod_next
    pure { self := { r with m_prod := m_prod }, ret := n, stores := stores }

/-- The member function `enqueue_bulk`. -/
def enqueue_bulk {α : Type} (fuel : Nat) (r : ring α) (obj_table : List α) (n : Nat) :
    Except fault (outcome α) :=
  do_enqueue fuel r obj_table n behavior_t.FIXED

/-- The member function `enqueue_burst`. -/
def enqueue_burst {α : Type} (fuel : Nat) (r : ring α) (obj_table : List α) (n : Nat) :
    Except fault (outcome α) :=
  do_enqueue fuel r obj_table n behavior_t.VARIABLE

/-- The member function `enqueue`: `enqueue_bulk(&obj, 1)`, the address of
one object being a table of length one. -/
def enqueue {α : Type} (fuel : Nat) (r : ring α) (obj : α) : Except fault (outcome α) :=
  enqueue_bulk fuel r [obj] 1

/-! ## Reference description of a bulk transfer -/

/-- The slab after the single element copy `p = (slab index, source index)`,
as a total function on slabs. -/
def put {α : Type} (obj_table : List α) (buf : List α) (p : Nat × Nat) : List α :=
  match obj_table[p.2]? with
  | some v => buf.set p.1 v
  | none => buf

/-- The slab after a sequence of element copies, applied in order. -/
def puts {α : Type} (obj_table : List α) (buf : List α) (l : List (Nat × Nat)) : List α :=
  l.foldl (put obj_table) buf

/-- The transfer state after a sequence of element copies. -/
def after {α : Type} (obj_table : List α) (s : xfer α) (l : List (Nat × Nat)) : xfer α :=
  { m_buf := puts obj_table s.m_buf l, stores := s.stores ++ l }

/-- The index pairs of `c` copies to consecutive slab positions from `idx`,
reading consecutive source positions from `i`. -/
def run_pairs : Nat → Nat → Nat → List (Nat × Nat)
  | 0, _, _ => []
  | c + 1, idx, i => (idx, i) :: run_pairs c (idx + 1) (i + 1)

/-- The index pairs that `enqueue_objs` goes through, by the branch it takes:
one run on the contiguous path, two runs on the wraparound path. -/
def physical_pairs (m_size idx n : Nat) : List (Nat × Nat) :=
  if idx + n < m_size then run_pairs n idx 0
  else run_pairs (m_size - idx) idx 0 ++ run_pairs (n - (m_size - idx)) 0 (m_size - idx)

/-- The index pairs of `n` element copies in increasing logical order from
counter value `h`: copy `j` goes to slot `(h + j) & mask` and reads source
position `j`. -/
def logical_pairs (m_mask h n : Nat) : List (Nat × Nat) :=
  (List.range n).map (fun j => ((add32 h j) &&& m_mask, j))

/-- The number of occupied slots, `producer.tail - consumer.tail` in
`uint32_t` arithmetic. -/
def occupied {α : Type} (r : ring α) : Nat :=
  sub32 r.m_prod.tail r.m_cons.tail

/-- The range conditions that the C++ types impose on an object: every
`uint32_t` member is below `2^32` and the slab has `m_size` elements. -/
def ring.typed {α : Type} (r : ring α) : Prop :=
  r.m_size < U32 ∧ r.m_mask < U32 ∧ r.m_buf.length = r.m_size ∧
  r.m_prod.head < U32 ∧ r.m_prod.tail < U32 ∧
  r.m_cons.head < U32 ∧ r.m_cons.tail < U32

instance ring.typed_decidable {α : Type} (r : ring α) : Decidable r.typed := by
  unfold ring.typed
  infer_instance

/-- The count that `move_prod_head` settles on for a request of `n`:
the free-space value of line 162 and the adjustment of lines 163-164. -/
def granted {α : Type} (r : ring α) (n : Nat) (behavior : behavior_t) : Nat :=
  let free_space := (sub32 (add32 r.m_size r.m_cons.tail) r.m_prod.head) &&& r.m_mask
  if free_space < n then (if behavior = behavior_t.FIXED then 0 else free_space) else n

/-- The capacity invariant: the number of occupied slots does not exceed
the capacity. -/
def capacity_invariant {α : Type} (r : ring α) : Prop :=
  occupied r ≤ r.m_size

instance capacity_invariant_decidable {α : Type} (r : ring α) :
    Decidable (capacity_invariant r) := by
  unfold capacity_invariant
  infer_instance

/-- The states reachable from construction with capacity `2^k` through
completed calls of the three implemented operations. -/
inductive reachable {α : Type} [Inhabited α] (k : Nat) : ring α → Prop where
  | construct : reachable k (ring_ctor (2 ^ k))
  | enqueue (r : ring α) (fuel : Nat) (obj : α) (out : outcome α) :
      reachable k r → enqueue fuel r obj = Except.ok out → reachable k out.self
  | enqueue_bulk (r : ring α) (fuel : Nat) (obj_table : List α) (n : Nat) (out : outcome α) :
      reachable k r → enqueue_bulk fuel r obj_table n = Except.ok out → reachable k out.self
  | enqueue_burst (r : ring α) (fuel : Nat) (obj_table : List α) (n : Nat) (out : outcome α) :
      reachable k r → enqueue_burst fuel r obj_table n = Except.ok out → reachable k out.self

/-- A ring of capacity 4 holding one element in slot 0. -/
def ring4_one : ring Nat :=
  { m_size := 4, m_mask := 3, m_buf := [9, 0, 0, 0],
    m_prod := { head := 1, tail := 1 }, m_cons := { head := 0, tail := 0 } }

/-- A ring of capacity 4 holding three elements in slots 0, 1, 2. -/
def ring4_three : ring Nat :=
  { m_size := 4, m_mask := 3, m_buf := [1, 2, 3, 0],
    m_prod := { head := 3, tail := 3 }, m_cons := { head := 0, tail := 0 } }

/-- A ring of capacity 4 holding four elements: it is full. -/
def ring4_full : ring Nat :=
  { m_size := 4, m_mask := 3, m_buf := [1, 2, 3, 4],
    m_prod := { head := 4, tail := 4 }, m_cons := { head := 0, tail := 0 } }

/-- A ring of capacity 4 holding one element in slot 2, with the producer
cursor at `2^32 - 1`, one step before it wraps to 0. -/
def ring4_wrapping : ring Nat :=
  { m_size := 4, m_mask := 3, m_buf := [0, 0, 7, 0],
    m_prod := { head := 4294967295, tail := 4294967295 },
    m_cons := { head := 4294967294, tail := 4294967294 } }

/-- The slot of the `j`-th not yet consumed element of `r`, counted from the
consumer tail. -/
def occupied_slot {α : Type} (r : ring α) (j : Nat) : Nat :=
  (add32 r.m_cons.tail j) &&& r.m_mask

/-- No slot that is occupied in `r` is assigned by the call with outcome
`out`, and every such slot holds afterwards what it held in `r`. -/
def occupied_slots_kept {α : Type} (r : ring α) (out : outcome α) : Prop :=
  (∀ p ∈ out.stores, ∀ j, j < occupied r → p.1 ≠ occupied_slot r j) ∧
  (∀ j, j < occupied r → out.self.m_buf[occupied_slot r j]? = r.m_buf[occupied_slot r j]?)

/-! ## Interleaved executions of `move_prod_head` -/

/-- The program points of a thread inside `move_prod_head` between which
other threads may run: before the read of `m_prod.head` (line 161), before
the availability computation (lines 162-167), before the compare-and-swap
(line 168), and after the return. -/
inductive pc_t where
  | read_head
  | compute
  | cmpset
  | done
deriving DecidableEq

/-- The locals of one thread running `move_prod_head`. -/
structure thread_t where
  pc : pc_t
  n : Nat
  behavior : behavior_t
  prod_head : Nat
  prod_next : Nat
deriving DecidableEq

/-- One atomic step of a thread on the shared object: the object afterwards,
the thread afterwards, and the range `(prod_head, n)` it has reserved if the
step was a compare-and-swap that returned 1.  The compare-and-swap step is
line 168, which hands `atomic32_cmpset` the value of `m_prod.head`. -/
def thread_step {α : Type} (r : ring α) (t : thread_t) :
    Except fault (ring α × thread_t × Option (Nat × Nat)) :=
  match t.pc with
  | pc_t.read_head =>
    Except.ok (r, { t with prod_head := r.m_prod.head, pc := pc_t.compute }, none)
  | pc_t.compute =>
    let free_space := (sub32 (add32 r.m_size r.m_cons.tail) t.prod_head) &&& r.m_mask
    let n := if free_space < t.n then (if t.behavior = behavior_t.FIXED then 0 else free_space)
      else t.n
    if n = 0 then Except.ok (r, { t with n := n, pc := pc_t.done }, none)
    else
      Except.ok (r, { t with n := n, prod_next := add32 t.prod_head n, pc := pc_t.cmpset }, none)
  | pc_t.cmpset =>
    match atomic32_cmpset r (pointer.from_integer r.m_prod.head) t.prod_head t.prod_next with
    | Except.error e => Except.error e
    | Except.ok (r1, success) =>
      if success = 0 then Except.ok (r1, { t with pc := pc_t.read_head }, none)
      else Except.ok (r1, { t with pc := pc_t.done }, some (t.prod_head, t.n))
  | pc_t.done => Except.ok (r, t, none)

/-- A shared object, the threads working on it, and the ranges reserved so
far, in the order in which their compare-and-swap returned 1. -/
structure config (α : Type) where
  self : ring α
  threads : List thread_t
  reserved : List (Nat × Nat)
deriving DecidableEq

/-- The scheduler lets thread `i` take one step (nothing happens if there is
no such thread).  A fault of the thread ends the execution. -/
def sched_step {α : Type} (c : config α) (i : Nat) : Except fault (config α) :=
  match c.threads[i]? with
  | none => Except.ok c
  | some t =>
    match thread_step c.self t with
    | Except.error e => Except.error e
    | Except.ok (r, t1, none) =>
      Except.ok { self := r, threads := c.threads.set i t1, reserved := c.reserved }
    | Except.ok (r, t1, some p) =>
      Except.ok { self := r, threads := c.threads.set i t1, reserved := c.reserved ++ [p] }

/-- The configuration after a schedule: the list of the threads that step,
in order. -/
def run_schedule {α : Type} : config α → List Nat → Except fault (config α)
  | c, [] => Except.ok c
  | c, i :: schedule =>
    match sched_step c i with
    | Except.error e => Except.error e
    | Except.ok c1 => run_schedule c1 schedule

/-- The free-space value that `move_prod_head` computes on line 162. -/
def free_space {α : Type} (r : ring α) : Nat :=
  (sub32 (add32 r.m_size r.m_cons.tail) r.m_prod.head) &&& r.m_mask

/-- A call of one of the three implemented operations, with its arguments. -/
inductive call (α : Type) where
  | enqueue (obj : α)
  | enqueue_bulk (obj_table : List α) (n : Nat)
  | enqueue_burst (obj_table : List α) (n : Nat)

/-- The execution of one call on `r`. -/
def run_call {α : Type} (fuel : Nat) (r : ring α) : call α → Except fault (outcome α)
  | call.enqueue obj => enqueue fuel r obj
  | call.enqueue_bulk obj_table n => enqueue_bulk fuel r obj_table n
  | call.enqueue_burst obj_table n => enqueue_burst fuel r obj_table n

/-- The execution of a finite sequence of calls, one after the other: the
object at the end and the counts returned, in order. -/
def run_calls {α : Type} (fuel : Nat) : ring α → List (call α) → Except fault (ring α × List Nat)
  | r, [] => Except.ok (r, [])
  | r, c :: cs => do
    let out ← run_call fuel r c
    let (r1, rets) ← run_calls fuel out.self cs
    pure (r1, out.ret :: rets)

/-- Every element assignment of the list stays inside a slab of `m_size`
elements and a source table of `n` elements. -/
def stores_in_bounds (m_size n : Nat) (stores : List (Nat × Nat)) : Prop :=
  ∀ p ∈ stores, p.1 < m_size ∧ p.2 < n

/-- A ring of capacity 8 with nothing enqueued. -/
def ring8_blank : ring Nat :=
  { m_size := 8, m_mask := 7, m_buf := [0, 0, 0, 0, 0, 0, 0, 0],
    m_prod := { head := 0, tail := 0 }, m_cons := { head := 0, tail := 0 } }

/-! ## Arithmetic facts -/

theorem land_not3 (n : Nat) (h : n < 4294967296) : n &&& 4294967292 = 4 * (n / 4) := by
  apply Nat.eq_of_testBit_eq
  intro i
  have hc : (4294967292 : Nat) = 2 ^ 2 * (2 ^ 30 - 1) := by norm_num
  have h4 : (4 : Nat) * (n / 4) = 2 ^ 2 * (n >>> 2) := by
    rw [Nat.shiftRight_eq_div_pow]; norm_num
  rw [Nat.testBit_and, hc, h4, Nat.testBit_mul_pow_two, Nat.testBit_mul_pow_two,
    Nat.testBit_two_pow_sub_one, Nat.testBit_shiftRight]
  by_cases h2 : i ≥ 2
  · have e : 2 + (i - 2) = i := by omega
    rw [e]
    by_cases h32 : i < 32
    · have : i - 2 < 30 := by omega
      simp [h2, this]
    · have hlt : n < 2 ^ i := by
        have : (2:Nat) ^ 32 ≤ 2 ^ i := Nat.pow_le_pow_right (by decide) (by omega)
        have h' : (2:Nat)^32 = 4294967296 := by norm_num
        omega
      simp [Nat.testBit_lt_two_pow hlt]
  · simp [h2]

theorem land_3 (n : Nat) : n &&& 3 = n % 4 :=
  Nat.and_pow_two_sub_one_eq_mod n 2

theorem add32_small (a b : Nat) (h : a + b < U32) : add32 a b = a + b := by
  unfold add32
  exact Nat.mod_eq_of_lt h

theorem add32_lt (a b : Nat) : add32 a b < U32 := by
  unfold add32 U32
  omega

theorem sub32_lt (a b : Nat) : sub32 a b < U32 := by
  unfold sub32 U32
  omega

/-! ## Element copies -/

theorem put_length {α : Type} (obj_table buf : List α) (p : Nat × Nat) :
    (put obj_table buf p).length = buf.length := by
  unfold put
  split <;> simp

theorem puts_length {α : Type} (obj_table : List α) (l : List (Nat × Nat)) :
    ∀ buf : List α, (puts obj_table buf l).length = buf.length := by
  induction l with
  | nil => intro buf; rfl
  | cons p l ih =>
    intro buf
    show (puts obj_table (put obj_table buf p) l).length = buf.length
    rw [ih, put_length]

theorem puts_append {α : Type} (obj_table buf : List α) (l1 l2 : List (Nat × Nat)) :
    puts obj_table buf (l1 ++ l2) = puts obj_table (puts obj_table buf l1) l2 := by
  unfold puts
  exact List.foldl_append _ _ _ _

theorem after_nil {α : Type} (obj_table : List α) (s : xfer α) : after obj_table s [] = s := by
  cases s
  simp [after, puts]

theorem after_append {α : Type} (obj_table : List α) (s : xfer α) (l1 l2 : List (Nat × Nat)) :
    after obj_table (after obj_table s l1) l2 = after obj_table s (l1 ++ l2) := by
  simp [after, puts_append, List.append_assoc]

theorem after_length {α : Type} (obj_table : List α) (s : xfer α) (l : List (Nat × Nat)) :
    (after obj_table s l).m_buf.length = s.m_buf.length := by
  simp [after, puts_length]

theorem assign_ok {α : Type} (obj_table : List α) (s : xfer α) (idx i : Nat)
    (hidx : idx < s.m_buf.length) (hi : i < obj_table.length) :
    assign obj_table s idx i = Except.ok (after obj_table s [(idx, i)]) := by
  unfold assign
  rw [if_pos hidx, List.getElem?_eq_getElem hi]
  simp [after, puts, put, List.getElem?_eq_getElem hi]

theorem run_pairs_add (a b : Nat) : ∀ idx i : Nat,
    run_pairs (a + b) idx i = run_pairs a idx i ++ run_pairs b (idx + a) (i + a) := by
  induction a with
  | zero => intro idx i; simp [run_pairs]
  | succ a ih =>
    intro idx i
    have e : a + 1 + b = (a + b) + 1 := by omega
    rw [e]
    simp only [run_pairs, List.cons_append]
    rw [ih]
    have e1 : idx + 1 + a = idx + (a + 1) := by omega
    have e2 : i + 1 + a = i + (a + 1) := by omega
    rw [e1, e2]

theorem run_pairs_eq_map (c : Nat) : ∀ idx i : Nat,
    run_pairs c idx i = (List.range c).map (fun j => (idx + j, i + j)) := by
  induction c with
  | zero => intro idx i; rfl
  | succ c ih =>
    intro idx i
    rw [List.range_succ_eq_map, run_pairs, ih]
    simp only [List.map_cons, List.map_map, Nat.add_zero]
    congr 1
    apply List.map_congr_left
    intro j _
    simp only [Function.comp, Nat.succ_eq_add_one]
    congr 1 <;> omega

/-! ## The four copy loops -/

theorem enqueue_objs_to_end_runs {α : Type} (obj_table : List α) (m_size : Nat) :
    ∀ (fuel i idx : Nat) (s : xfer α), idx ≤ m_size → m_size ≤ s.m_buf.length →
      m_size < U32 → i + (m_size - idx) ≤ obj_table.length → i + (m_size - idx) < U32 →
      m_size - idx ≤ fuel →
      enqueue_objs_to_end obj_table m_size fuel i idx s =
        Except.ok (i + (m_size - idx), m_size,
          after obj_table s (run_pairs (m_size - idx) idx i)) := by
  intro fuel
  induction fuel with
  | zero =>
    intro i idx s h1 _ _ _ _ h6
    have e : idx = m_size := by omega
    subst e
    simp [enqueue_objs_to_end, run_pairs, after_nil]
  | succ fuel ih =>
    intro i idx s h1 h2 h3 h4 h5 h6
    by_cases hlt : idx < m_size
    · have hassign := assign_ok obj_table s idx i (by omega) (by omega)
      have e1 : add32 i 1 = i + 1 := add32_small _ _ (by omega)
      have e2 : add32 idx 1 = idx + 1 := add32_small _ _ (by omega)
      have hrec := ih (i + 1) (idx + 1) (after obj_table s [(idx, i)]) (by omega)
        (by rw [after_length]; exact h2) h3 (by omega) (by omega) (by omega)
      have e3 : m_size - idx = (m_size - (idx + 1)) + 1 := by omega
      simp only [enqueue_objs_to_end, if_pos hlt, hassign, e1, e2, bind, Except.bind, hrec,
        after_append]
      rw [e3]
      simp only [run_pairs, List.singleton_append]
      have e4 : i + 1 + (m_size - (idx + 1)) = i + (m_size - (idx + 1) + 1) := by omega
      rw [e4]
    · have e : idx = m_size := by omega
      subst e
      simp [enqueue_objs_to_end, run_pairs, after_nil]

theorem enqueue_objs_from_start_runs {α : Type} (obj_table : List α) (n : Nat) :
    ∀ (fuel i idx : Nat) (s : xfer α), i ≤ n → n ≤ obj_table.length → n < U32 →
      idx + (n - i) ≤ s.m_buf.length → idx + (n - i) < U32 → n - i ≤ fuel →
      enqueue_objs_from_start obj_table n fuel i idx s =
        Except.ok (n, idx + (n - i), after obj_table s (run_pairs (n - i) idx i)) := by
  intro fuel
  induction fuel with
  | zero =>
    intro i idx s h1 _ _ _ _ h6
    have e : i = n := by omega
    subst e
    simp [enqueue_objs_from_start, run_pairs, after_nil]
  | succ fuel ih =>
    intro i idx s h1 h2 h3 h4 h5 h6
    by_cases hlt : i < n
    · have hassign := assign_ok obj_table s idx i (by omega) (by omega)
      have e1 : add32 i 1 = i + 1 := add32_small _ _ (by omega)
      have e2 : add32 idx 1 = idx + 1 := add32_small _ _ (by omega)
      have hrec := ih (i + 1) (idx + 1) (after obj_table s [(idx, i)]) (by omega) h2 h3
        (by rw [after_length]; omega) (by omega) (by omega)
      have e3 : n - i = (n - (i + 1)) + 1 := by omega
      simp only [enqueue_objs_from_start, if_pos hlt, hassign, e1, e2, bind, Except.bind, hrec,
        after_append]
      rw [e3]
      simp only [run_pairs, List.singleton_append]
      have e4 : idx + 1 + (n - (i + 1)) = idx + (n - (i + 1) + 1) := by omega
      rw [e4]
    · have e : i = n := by omega
      subst e
      simp [enqueue_objs_from_start, run_pairs, after_nil]

theorem enqueue_objs_groups_runs {α : Type} (obj_table : List α) (n : Nat) :
    ∀ (fuel g i idx : Nat) (s : xfer α), i + 4 * g = (n &&& 4294967292) → g ≤ fuel →
      idx + 4 * g ≤ s.m_buf.length → idx + 4 * g < U32 →
      i + 4 * g ≤ obj_table.length → i + 4 * g < U32 →
      enqueue_objs_groups obj_table n fuel i idx s =
        Except.ok (i + 4 * g, idx + 4 * g, after obj_table s (run_pairs (4 * g) idx i)) := by
  intro fuel
  induction fuel with
  | zero =>
    intro g i idx s h1 h2 _ _ _ _
    have e : g = 0 := by omega
    subst e
    have hn : ¬ i < (n &&& 4294967292) := by omega
    simp [enqueue_objs_groups, hn, run_pairs, after_nil]
  | succ fuel ih =>
    intro g i idx s h1 h2 h3 h4 h5 h6
    cases g with
    | zero =>
      have hn : ¬ i < (n &&& 4294967292) := by omega
      simp [enqueue_objs_groups, hn, run_pairs, after_nil]
    | succ g =>
      have hlt : i < (n &&& 4294967292) := by omega
      have a0 := assign_ok obj_table s idx i (by omega) (by omega)
      have a1 := assign_ok obj_table (after obj_table s [(idx, i)]) (idx + 1) (i + 1)
        (by rw [after_length]; omega) (by omega)
      have a2 := assign_ok obj_table
        (after obj_table (after obj_table s [(idx, i)]) [(idx + 1, i + 1)]) (idx + 2) (i + 2)
        (by rw [after_length, after_length]; omega) (by omega)
      have a3 := assign_ok obj_table
        (after obj_table (after obj_table (after obj_table s [(idx, i)]) [(idx + 1, i + 1)])
          [(idx + 2, i + 2)]) (idx + 3) (i + 3)
        (by rw [after_length, after_length, after_length]; omega) (by omega)
      have e1 : add32 i 1 = i + 1 := add32_small _ _ (by omega)
      have e2 : add32 i 2 = i + 2 := add32_small _ _ (by omega)
      have e3 : add32 i 3 = i + 3 := add32_small _ _ (by omega)
      have e4 : add32 i 4 = i + 4 := add32_small _ _ (by omega)
      have f1 : add32 idx 1 = idx + 1 := add32_small _ _ (by omega)
      have f2 : add32 idx 2 = idx + 2 := add32_small _ _ (by omega)
      have f3 : add32 idx 3 = idx + 3 := add32_small _ _ (by omega)
      have f4 : add32 idx 4 = idx + 4 := add32_small _ _ (by omega)
      have hrec := ih g (i + 4) (idx + 4)
        (after obj_table (after obj_table (after obj_table (after obj_table s [(idx, i)])
          [(idx + 1, i + 1)]) [(idx + 2, i + 2)]) [(idx + 3, i + 3)])
        (by omega) (by omega)
        (by rw [after_length, after_length, after_length, after_length]; omega)
        (by omega) (by omega) (by omega)
      have e5 : 4 * (g + 1) = 4 + 4 * g := by omega
      simp only [enqueue_objs_groups, if_pos hlt, a0, a1, a2, a3, e1, e2, e3, e4, f1, f2, f3, f4,
        bind, Except.bind, hrec]
      simp only [after_append]
      have e6 : i + 4 + 4 * g = i + (4 + 4 * g) := by omega
      have e7 : idx + 4 + 4 * g = idx + (4 + 4 * g) := by omega
      rw [e5, run_pairs_add, e6, e7]
      simp only [run_pairs, List.cons_append, List.nil_append, List.singleton_append]

theorem enqueue_objs_switch_runs {α : Type} (obj_table : List α) (n i idx : Nat) (s : xfer α)
    (h1 : idx + n % 4 ≤ s.m_buf.length) (h2 : idx + n % 4 < U32)
    (h3 : i + n % 4 ≤ obj_table.length) (h4 : i + n % 4 < U32) :
    enqueue_objs_switch obj_table n i idx s =
      Except.ok (i + n % 4, idx + n % 4, after obj_table s (run_pairs (n % 4) idx i)) := by
  have hc : n % 4 = 0 ∨ n % 4 = 1 ∨ n % 4 = 2 ∨ n % 4 = 3 := by omega
  unfold enqueue_objs_switch
  rw [land_3]
  rcases hc with hc | hc | hc | hc
  · rw [hc]
    simp [run_pairs, after_nil]
  · rw [hc] at h1 h2 h3 h4
    have a0 := assign_ok obj_table s idx i (by omega) (by omega)
    have e1 : add32 i 1 = i + 1 := add32_small _ _ (by omega)
    have f1 : add32 idx 1 = idx + 1 := add32_small _ _ (by omega)
    rw [hc]
    simp only [enqueue_objs_case1, a0, e1, f1, bind, Except.bind, pure, Except.pure, run_pairs]
    simp
  · rw [hc] at h1 h2 h3 h4
    have a0 := assign_ok obj_table s idx i (by omega) (by omega)
    have a1 := assign_ok obj_table (after obj_table s [(idx, i)]) (idx + 1) (i + 1)
      (by rw [after_length]; omega) (by omega)
    have e1 : add32 i 1 = i + 1 := add32_small _ _ (by omega)
    have e2 : add32 (i + 1) 1 = i + 2 := add32_small _ _ (by omega)
    have f1 : add32 idx 1 = idx + 1 := add32_small _ _ (by omega)
    have f2 : add32 (idx + 1) 1 = idx + 2 := add32_small _ _ (by omega)
    rw [hc]
    simp only [enqueue_objs_case2, enqueue_objs_case1, a0, a1, e1, e2, f1, f2, bind, Except.bind,
      pure, Except.pure, run_pairs]
    simp [after_append]
  · rw [hc] at h1 h2 h3 h4
    have a0 := assign_ok obj_table s idx i (by omega) (by omega)
    have a1 := assign_ok obj_table (after obj_table s [(idx, i)]) (idx + 1) (i + 1)
      (by rw [after_length]; omega) (by omega)
    have a2 := assign_ok obj_table
      (after obj_table (after obj_table s [(idx, i)]) [(idx + 1, i + 1)]) (idx + 1 + 1) (i + 1 + 1)
      (by rw [after_length, after_length]; omega) (by omega)
    have e1 : add32 i 1 = i + 1 := add32_small _ _ (by omega)
    have e2 : add32 (i + 1) 1 = i + 1 + 1 := add32_small _ _ (by omega)
    have e3 : add32 (i + 1 + 1) 1 = i + 3 := add32_small _ _ (by omega)
    have f1 : add32 idx 1 = idx + 1 := add32_small _ _ (by omega)
    have f2 : add32 (idx + 1) 1 = idx + 1 + 1 := add32_small _ _ (by omega)
    have f3 : add32 (idx + 1 + 1) 1 = idx + 3 := add32_small _ _ (by omega)
    rw [hc]
    simp only [enqueue_objs_case3, enqueue_objs_case2, enqueue_objs_case1, a0, a1, a2, e1, e2, e3,
      f1, f2, f3, bind, Except.bind, pure, Except.pure, run_pairs]
    simp [after_append]

theorem enqueue_objs_runs {α : Type} (fuel : Nat) (r : ring α) (prod_head : Nat)
    (obj_table : List α) (n : Nat)
    (hidx : (prod_head &&& r.m_mask) ≤ r.m_size) (hlen : r.m_buf.length = r.m_size)
    (hsz : r.m_size < U32) (hn : n ≤ r.m_size) (hsum : (prod_head &&& r.m_mask) + n < U32)
    (hitems : n ≤ obj_table.length) (hfuel : n ≤ fuel) :
    enqueue_objs fuel r prod_head obj_table n =
      Except.ok
        ({ r with
            m_buf := puts obj_table r.m_buf (physical_pairs r.m_size (prod_head &&& r.m_mask) n) },
          physical_pairs r.m_size (prod_head &&& r.m_mask) n) := by
  have hnU : n < 4294967296 := by unfold U32 at hsz; omega
  have hB := land_not3 n hnU
  unfold enqueue_objs physical_pairs
  simp only []
  rw [add32_small _ _ hsum]
  by_cases hlt : (prod_head &&& r.m_mask) + n < r.m_size
  · rw [if_pos hlt, if_pos hlt]
    have hg := enqueue_objs_groups_runs obj_table n fuel (n / 4) 0 (prod_head &&& r.m_mask)
      { m_buf := r.m_buf, stores := [] } (by omega) (by omega) (by simp only []; omega)
      (by omega) (by omega) (by omega)
    have hs := enqueue_objs_switch_runs obj_table n (0 + 4 * (n / 4))
      ((prod_head &&& r.m_mask) + 4 * (n / 4))
      (after obj_table { m_buf := r.m_buf, stores := [] }
        (run_pairs (4 * (n / 4)) (prod_head &&& r.m_mask) 0))
      (by rw [after_length]; simp only []; omega) (by omega) (by omega) (by omega)
    have hsplit : n = 4 * (n / 4) + n % 4 := by omega
    simp only [hg, hs, bind, Except.bind, pure, Except.pure, after_append]
    rw [← run_pairs_add, ← hsplit]
    simp [after]
  · rw [if_neg hlt, if_neg hlt]
    have ht := enqueue_objs_to_end_runs obj_table r.m_size fuel 0 (prod_head &&& r.m_mask)
      { m_buf := r.m_buf, stores := [] } hidx (by simp only []; omega) hsz (by omega) (by omega)
      (by omega)
    have hf := enqueue_objs_from_start_runs obj_table n fuel
      (0 + (r.m_size - (prod_head &&& r.m_mask))) 0
      (after obj_table { m_buf := r.m_buf, stores := [] }
        (run_pairs (r.m_size - (prod_head &&& r.m_mask)) (prod_head &&& r.m_mask) 0))
      (by omega) hitems (by omega) (by rw [after_length]; simp only []; omega) (by omega)
      (by omega)
    have e : n - (0 + (r.m_size - (prod_head &&& r.m_mask)))
        = n - (r.m_size - (prod_head &&& r.m_mask)) := by omega
    simp only [ht, hf, bind, Except.bind, pure, Except.pure, after_append]
    rw [e]
    simp [after]

/-! ## Slot indices under a power-of-two capacity -/

theorem pow2_le (k : Nat) (hk : k < 32) : 2 ^ k ≤ 2147483648 := by
  have h := Nat.pow_le_pow_right (show 0 < 2 by decide) (show k ≤ 31 by omega)
  norm_num at h
  exact h

theorem slot_eq (k h j : Nat) (hk : k < 32) :
    (add32 h j) &&& (2 ^ k - 1) = (h % 2 ^ k + j) % 2 ^ k := by
  have hd : 2 ^ k ∣ U32 := by
    have h32 : U32 = 2 ^ 32 := by unfold U32; norm_num
    rw [h32]
    exact Nat.pow_dvd_pow 2 (by omega)
  rw [Nat.and_pow_two_sub_one_eq_mod]
  unfold add32
  rw [Nat.mod_mod_of_dvd _ hd]
  conv_lhs => rw [Nat.add_mod]
  conv_rhs => rw [Nat.add_mod, Nat.mod_mod]

theorem slot_lt (k h j : Nat) : (add32 h j) &&& (2 ^ k - 1) < 2 ^ k := by
  rw [Nat.and_pow_two_sub_one_eq_mod]
  exact Nat.mod_lt _ (Nat.two_pow_pos k)

theorem slot_inj (k h i j : Nat) (hk : k < 32) (hi : i < 2 ^ k) (hj : j < 2 ^ k)
    (he : (add32 h i) &&& (2 ^ k - 1) = (add32 h j) &&& (2 ^ k - 1)) : i = j := by
  rw [slot_eq k h i hk, slot_eq k h j hk] at he
  have h1 : i ≡ j [MOD 2 ^ k] := Nat.ModEq.add_left_cancel' (h % 2 ^ k) he
  unfold Nat.ModEq at h1
  rw [Nat.mod_eq_of_lt hi, Nat.mod_eq_of_lt hj] at h1
  exact h1

theorem physical_eq_logical (k h n : Nat) (hk : k < 32) (hn : n ≤ 2 ^ k) :
    physical_pairs (2 ^ k) (h &&& (2 ^ k - 1)) n = logical_pairs (2 ^ k - 1) h n := by
  have hpos : 0 < 2 ^ k := Nat.two_pow_pos k
  have hidx : h &&& (2 ^ k - 1) = h % 2 ^ k := Nat.and_pow_two_sub_one_eq_mod h k
  have hlt : h % 2 ^ k < 2 ^ k := Nat.mod_lt _ hpos
  rw [hidx]
  unfold physical_pairs logical_pairs
  by_cases hc : h % 2 ^ k + n < 2 ^ k
  · rw [if_pos hc, run_pairs_eq_map]
    apply List.map_congr_left
    intro j hj
    rw [List.mem_range] at hj
    rw [slot_eq k h j hk, Nat.mod_eq_of_lt (show h % 2 ^ k + j < 2 ^ k by omega)]
    simp
  · rw [if_neg hc, run_pairs_eq_map, run_pairs_eq_map]
    have hsplit : n = (2 ^ k - h % 2 ^ k) + (n - (2 ^ k - h % 2 ^ k)) := by omega
    conv_rhs => rw [hsplit, List.range_add, List.map_append, List.map_map]
    congr 1
    · apply List.map_congr_left
      intro j hj
      rw [List.mem_range] at hj
      rw [slot_eq k h j hk, Nat.mod_eq_of_lt (show h % 2 ^ k + j < 2 ^ k by omega)]
      simp
    · apply List.map_congr_left
      intro j hj
      rw [List.mem_range] at hj
      simp only [Function.comp]
      rw [slot_eq k h _ hk]
      have e : h % 2 ^ k + (2 ^ k - h % 2 ^ k + j) = 2 ^ k + j := by omega
      rw [e, Nat.add_mod_left, Nat.mod_eq_of_lt (show j < 2 ^ k by omega)]
      simp

theorem logical_pairs_nodup (k h n : Nat) (hk : k < 32) (hn : n ≤ 2 ^ k) :
    ((logical_pairs (2 ^ k - 1) h n).map Prod.fst).Nodup := by
  unfold logical_pairs
  rw [List.map_map]
  apply List.Nodup.map_on _ (List.nodup_range n)
  intro i hi j hj he
  rw [List.mem_range] at hi hj
  exact slot_inj k h i j hk (by omega) (by omega) he

/-! ## The slab after a sequence of copies -/

theorem puts_frame {α : Type} (obj_table : List α) (l : List (Nat × Nat)) :
    ∀ (buf : List α) (idx : Nat), (∀ p ∈ l, p.1 ≠ idx) →
      (puts obj_table buf l)[idx]? = buf[idx]? := by
  induction l with
  | nil => intro buf idx _; rfl
  | cons p l ih =>
    intro buf idx hne
    show (puts obj_table (put obj_table buf p) l)[idx]? = buf[idx]?
    rw [ih _ idx (fun q hq => hne q (List.mem_cons_of_mem _ hq))]
    have hp : p.1 ≠ idx := hne p (List.mem_cons_self _ _)
    unfold put
    split
    · exact List.getElem?_set_ne hp
    · rfl

theorem puts_written {α : Type} (obj_table : List α) (l : List (Nat × Nat)) :
    ∀ (buf : List α), (l.map Prod.fst).Nodup → (∀ p ∈ l, p.1 < buf.length) →
      (∀ p ∈ l, p.2 < obj_table.length) →
      ∀ p ∈ l, (puts obj_table buf l)[p.1]? = obj_table[p.2]? := by
  induction l with
  | nil => intro buf _ _ _ p hp; cases hp
  | cons q l ih =>
    intro buf hnd hlen hsrc p hp
    rw [List.map_cons, List.nodup_cons] at hnd
    show (puts obj_table (put obj_table buf q) l)[p.1]? = obj_table[p.2]?
    rcases List.mem_cons.mp hp with hpq | hpl
    · subst hpq
      have hfr := puts_frame obj_table l (put obj_table buf p) p.1 (by
        intro q hq he
        exact hnd.1 (List.mem_map.mpr ⟨q, hq, he⟩))
      rw [hfr]
      have h1 := hlen p (List.mem_cons_self _ _)
      have h2 := hsrc p (List.mem_cons_self _ _)
      unfold put
      rw [List.getElem?_eq_getElem h2]
      simp [List.getElem?_set, h1]
    · exact ih (put obj_table buf q) hnd.2
        (fun p hp => by rw [put_length]; exact hlen p (List.mem_cons_of_mem _ hp))
        (fun p hp => hsrc p (List.mem_cons_of_mem _ hp)) p hpl

/-! ## Reservation, publication and the whole enqueue -/

theorem granted_le_request {α : Type} (r : ring α) (n : Nat) (behavior : behavior_t) :
    granted r n behavior ≤ n := by
  unfold granted
  simp only []
  split
  · split <;> omega
  · exact Nat.le_refl n

theorem granted_le_mask {α : Type} (r : ring α) (n : Nat) (behavior : behavior_t) :
    granted r n behavior ≤ r.m_mask := by
  have h : (sub32 (add32 r.m_size r.m_cons.tail) r.m_prod.head) &&& r.m_mask ≤ r.m_mask :=
    Nat.and_le_right
  unfold granted
  simp only []
  split
  · split <;> omega
  · omega

theorem granted_eq {α : Type} (r : ring α) (n : Nat) (behavior : behavior_t) :
    granted r n behavior =
      if free_space r < n then (if behavior = behavior_t.FIXED then 0 else free_space r)
      else n := rfl

theorem free_space_le_mask {α : Type} (r : ring α) : free_space r ≤ r.m_mask := by
  unfold free_space
  exact Nat.and_le_right

theorem atomic32_cmpset_from_integer {α : Type} (r : ring α) (value exp src : Nat) :
    atomic32_cmpset r (pointer.from_integer value) exp src =
      Except.error fault.wild_pointer := rfl

theorem move_prod_head_runs {α : Type} (fuel : Nat) (r : ring α) (n p0 p1 : Nat)
    (behavior : behavior_t) :
    move_prod_head fuel r n p0 p1 behavior =
      if granted r n behavior = 0 then Except.ok (r, 0, r.m_prod.head, p1)
      else Except.error fault.wild_pointer := by
  have key : ∀ g : Nat,
      (if g = 0 then (Except.ok (r, g, r.m_prod.head, p1) : Except fault (ring α × Nat × Nat × Nat))
       else Except.error fault.wild_pointer) =
      if g = 0 then Except.ok (r, 0, r.m_prod.head, p1) else Except.error fault.wild_pointer := by
    intro g
    by_cases hg : g = 0
    · rw [if_pos hg, if_pos hg, hg]
    · rw [if_neg hg, if_neg hg]
  cases fuel with
  | zero => exact key (granted r n behavior)
  | succ fuel => exact key (granted r n behavior)

theorem update_tail_runs (fuel : Nat) (pair : pointer_pair_t) (old_val new_val : Nat)
    (h : pair.tail = old_val) :
    update_tail fuel pair old_val new_val = Except.ok { pair with tail := new_val } := by
  cases fuel <;> simp [update_tail, h]

theorem do_enqueue_outcome {α : Type} (fuel : Nat) (r : ring α) (obj_table : List α)
    (n : Nat) (behavior : behavior_t) :
    do_enqueue fuel r obj_table n behavior =
      if granted r n behavior = 0 then Except.ok { self := r, ret := 0, stores := [] }
      else Except.error fault.wild_pointer := by
  unfold do_enqueue
  rw [move_prod_head_runs]
  by_cases h0 : granted r n behavior = 0
  · rw [if_pos h0, if_pos h0]
    rfl
  · rw [if_neg h0, if_neg h0]
    rfl

theorem do_enqueue_of_granted_zero {α : Type} (fuel : Nat) (r : ring α) (obj_table : List α)
    (n : Nat) (behavior : behavior_t) (h0 : granted r n behavior = 0) :
    do_enqueue fuel r obj_table n behavior = Except.ok { self := r, ret := 0, stores := [] } := by
  rw [do_enqueue_outcome, if_pos h0]

theorem do_enqueue_of_granted_pos {α : Type} (fuel : Nat) (r : ring α) (obj_table : List α)
    (n : Nat) (behavior : behavior_t) (h0 : granted r n behavior ≠ 0) :
    do_enqueue fuel r obj_table n behavior = Except.error fault.wild_pointer := by
  rw [do_enqueue_outcome, if_neg h0]

theorem do_enqueue_ok_or_fault {α : Type} (fuel : Nat) (r : ring α) (obj_table : List α)
    (n : Nat) (behavior : behavior_t) :
    do_enqueue fuel r obj_table n behavior =
        Except.ok { self := r, ret := 0, stores := [] } ∨
      do_enqueue fuel r obj_table n behavior = Except.error fault.wild_pointer := by
  by_cases h0 : granted r n behavior = 0
  · exact Or.inl (do_enqueue_of_granted_zero fuel r obj_table n behavior h0)
  · exact Or.inr (do_enqueue_of_granted_pos fuel r obj_table n behavior h0)

/-! ## What any completed call leaves unchanged -/

theorem bind_eq_ok {ε β γ : Type} (x : Except ε β) (f : β → Except ε γ) (v : γ)
    (h : (x >>= f) = Except.ok v) : ∃ a, x = Except.ok a ∧ f a = Except.ok v := by
  cases x with
  | error e => cases h
  | ok a => exact ⟨a, rfl, h⟩

theorem assign_length {α : Type} (obj_table : List α) (s s1 : xfer α) (idx i : Nat)
    (h : assign obj_table s idx i = Except.ok s1) : s1.m_buf.length = s.m_buf.length := by
  unfold assign at h
  split at h
  · split at h
    · cases h
      simp
    · cases h
  · cases h

theorem enqueue_objs_groups_length {α : Type} (obj_table : List α) (n : Nat) :
    ∀ (fuel i idx : Nat) (s : xfer α) (v : Nat × Nat × xfer α),
      enqueue_objs_groups obj_table n fuel i idx s = Except.ok v →
      v.2.2.m_buf.length = s.m_buf.length := by
  intro fuel
  induction fuel with
  | zero =>
    intro i idx s v h
    unfold enqueue_objs_groups at h
    split at h
    · cases h
    · cases h; rfl
  | succ fuel ih =>
    intro i idx s v h
    unfold enqueue_objs_groups at h
    split at h
    · obtain ⟨s1, h1, h⟩ := bind_eq_ok _ _ _ h
      obtain ⟨s2, h2, h⟩ := bind_eq_ok _ _ _ h
      obtain ⟨s3, h3, h⟩ := bind_eq_ok _ _ _ h
      obtain ⟨s4, h4, h⟩ := bind_eq_ok _ _ _ h
      rw [ih _ _ _ _ h, assign_length _ _ _ _ _ h4, assign_length _ _ _ _ _ h3,
        assign_length _ _ _ _ _ h2, assign_length _ _ _ _ _ h1]
    · cases h; rfl

theorem enqueue_objs_case1_length {α : Type} (obj_table : List α) (i idx : Nat) (s : xfer α)
    (v : Nat × Nat × xfer α) (h : enqueue_objs_case1 obj_table i idx s = Except.ok v) :
    v.2.2.m_buf.length = s.m_buf.length := by
  unfold enqueue_objs_case1 at h
  obtain ⟨s1, h1, h⟩ := bind_eq_ok _ _ _ h
  cases h
  exact assign_length _ _ _ _ _ h1

theorem enqueue_objs_case2_length {α : Type} (obj_table : List α) (i idx : Nat) (s : xfer α)
    (v : Nat × Nat × xfer α) (h : enqueue_objs_case2 obj_table i idx s = Except.ok v) :
    v.2.2.m_buf.length = s.m_buf.length := by
  unfold enqueue_objs_case2 at h
  obtain ⟨s1, h1, h⟩ := bind_eq_ok _ _ _ h
  rw [enqueue_objs_case1_length _ _ _ _ _ h, assign_length _ _ _ _ _ h1]

theorem enqueue_objs_case3_length {α : Type} (obj_table : List α) (i idx : Nat) (s : xfer α)
    (v : Nat × Nat × xfer α) (h : enqueue_objs_case3 obj_table i idx s = Except.ok v) :
    v.2.2.m_buf.length = s.m_buf.length := by
  unfold enqueue_objs_case3 at h
  obtain ⟨s1, h1, h⟩ := bind_eq_ok _ _ _ h
  rw [enqueue_objs_case2_length _ _ _ _ _ h, assign_length _ _ _ _ _ h1]

theorem enqueue_objs_switch_length {α : Type} (obj_table : List α) (n i idx : Nat) (s : xfer α)
    (v : Nat × Nat × xfer α) (h : enqueue_objs_switch obj_table n i idx s = Except.ok v) :
    v.2.2.m_buf.length = s.m_buf.length := by
  unfold enqueue_objs_switch at h
  split at h
  · exact enqueue_objs_case3_length _ _ _ _ _ h
  · split at h
    · exact enqueue_objs_case2_length _ _ _ _ _ h
    · split at h
      · exact enqueue_objs_case1_length _ _ _ _ _ h
      · cases h; rfl

theorem enqueue_objs_to_end_length {α : Type} (obj_table : List α) (m_size : Nat) :
    ∀ (fuel i idx : Nat) (s : xfer α) (v : Nat × Nat × xfer α),
      enqueue_objs_to_end obj_table m_size fuel i idx s = Except.ok v →
      v.2.2.m_buf.length = s.m_buf.length := by
  intro fuel
  induction fuel with
  | zero =>
    intro i idx s v h
    unfold enqueue_objs_to_end at h
    split at h
    · cases h
    · cases h; rfl
  | succ fuel ih =>
    intro i idx s v h
    unfold enqueue_objs_to_end at h
    split at h
    · obtain ⟨s1, h1, h⟩ := bind_eq_ok _ _ _ h
      rw [ih _ _ _ _ h, assign_length _ _ _ _ _ h1]
    · cases h; rfl

theorem enqueue_objs_from_start_length {α : Type} (obj_table : List α) (n : Nat) :
    ∀ (fuel i idx : Nat) (s : xfer α) (v : Nat × Nat × xfer α),
      enqueue_objs_from_start obj_table n fuel i idx s = Except.ok v →
      v.2.2.m_buf.length = s.m_buf.length := by
  intro fuel
  induction fuel with
  | zero =>
    intro i idx s v h
    unfold enqueue_objs_from_start at h
    split at h
    · cases h
    · cases h; rfl
  | succ fuel ih =>
    intro i idx s v h
    unfold enqueue_objs_from_start at h
    split at h
    · obtain ⟨s1, h1, h⟩ := bind_eq_ok _ _ _ h
      rw [ih _ _ _ _ h, assign_length _ _ _ _ _ h1]
    · cases h; rfl

theorem enqueue_objs_frame {α : Type} (fuel : Nat) (r : ring α) (prod_head : Nat)
    (obj_table : List α) (n : Nat) (v : ring α × List (Nat × Nat))
    (h : enqueue_objs fuel r prod_head obj_table n = Except.ok v) :
    v.1.m_size = r.m_size ∧ v.1.m_mask = r.m_mask ∧ v.1.m_prod = r.m_prod ∧
      v.1.m_cons = r.m_cons ∧ v.1.m_buf.length = r.m_buf.length := by
  unfold enqueue_objs at h
  simp only [] at h
  split at h
  · obtain ⟨a, h1, h⟩ := bind_eq_ok _ _ _ h
    obtain ⟨b, h2, h⟩ := bind_eq_ok _ _ _ h
    cases h
    have l1 := enqueue_objs_groups_length _ _ _ _ _ _ _ h1
    have l2 := enqueue_objs_switch_length _ _ _ _ _ _ h2
    simp only [] at l1
    exact ⟨rfl, rfl, rfl, rfl, by simp only []; rw [l2, l1]⟩
  · obtain ⟨a, h1, h⟩ := bind_eq_ok _ _ _ h
    obtain ⟨b, h2, h⟩ := bind_eq_ok _ _ _ h
    cases h
    have l1 := enqueue_objs_to_end_length _ _ _ _ _ _ _ h1
    have l2 := enqueue_objs_from_start_length _ _ _ _ _ _ _ h2
    simp only [] at l1
    exact ⟨rfl, rfl, rfl, rfl, by simp only []; rw [l2, l1]⟩

theorem update_tail_frame : ∀ (fuel : Nat) (pair p1 : pointer_pair_t) (old_val new_val : Nat),
    update_tail fuel pair old_val new_val = Except.ok p1 →
      pair.tail = old_val ∧ p1 = { pair with tail := new_val } := by
  intro fuel
  induction fuel with
  | zero =>
    intro pair p1 old_val new_val h
    unfold update_tail at h
    split at h
    · cases h
    · rename_i hne
      cases h
      exact ⟨by simpa using hne, rfl⟩
  | succ fuel ih =>
    intro pair p1 old_val new_val h
    unfold update_tail at h
    split at h
    · exact ih _ _ _ _ h
    · rename_i hne
      cases h
      exact ⟨by simpa using hne, rfl⟩

theorem do_enqueue_frame {α : Type} (fuel : Nat) (r : ring α) (obj_table : List α) (n : Nat)
    (behavior : behavior_t) (out : outcome α)
    (h : do_enqueue fuel r obj_table n behavior = Except.ok out) :
    granted r n behavior = 0 ∧ out = { self := r, ret := 0, stores := [] } := by
  rw [do_enqueue_outcome] at h
  by_cases h0 : granted r n behavior = 0
  · rw [if_pos h0] at h
    cases h
    exact ⟨h0, rfl⟩
  · rw [if_neg h0] at h
    cases h

/-! ## The result of a transfer on a power-of-two ring -/

theorem mem_logical_pairs (m_mask h n : Nat) (p : Nat × Nat) :
    p ∈ logical_pairs m_mask h n ↔ p.2 < n ∧ p.1 = (add32 h p.2) &&& m_mask := by
  unfold logical_pairs
  rw [List.mem_map]
  constructor
  · rintro ⟨j, hj, rfl⟩
    exact ⟨List.mem_range.mp hj, rfl⟩
  · rintro ⟨h1, h2⟩
    refine ⟨p.2, List.mem_range.mpr h1, ?_⟩
    rw [← h2]

theorem enqueue_objs_post {α : Type} (k : Nat) (hk : k < 32)
    (fuel : Nat) (r : ring α) (prod_head : Nat) (obj_table : List α) (n : Nat)
    (hsize : r.m_size = 2 ^ k) (hmask : r.m_mask = 2 ^ k - 1)
    (hlen : r.m_buf.length = r.m_size) (hn : n ≤ r.m_size)
    (hitems : n ≤ obj_table.length) (hfuel : n ≤ fuel) :
    ∃ r1 stores, enqueue_objs fuel r prod_head obj_table n = Except.ok (r1, stores) ∧
      stores = logical_pairs r.m_mask prod_head n ∧
      (∀ idx, (∀ i, i < n → idx ≠ (add32 prod_head i) &&& r.m_mask) →
        r1.m_buf[idx]? = r.m_buf[idx]?) := by
  have hpos : 0 < 2 ^ k := Nat.two_pow_pos k
  have hle := pow2_le k hk
  have hidx : (prod_head &&& r.m_mask) < 2 ^ k := by
    rw [hmask, Nat.and_pow_two_sub_one_eq_mod]
    exact Nat.mod_lt _ hpos
  have hrun := enqueue_objs_runs fuel r prod_head obj_table n (by omega) hlen
    (by unfold U32; omega) hn (by unfold U32; omega) hitems hfuel
  have hphys : physical_pairs r.m_size (prod_head &&& r.m_mask) n =
      logical_pairs r.m_mask prod_head n := by
    rw [hsize, hmask]
    exact physical_eq_logical k prod_head n hk (by omega)
  rw [hphys] at hrun
  refine ⟨_, _, hrun, rfl, ?_⟩
  intro idx hne
  apply puts_frame
  intro p hp he
  rw [mem_logical_pairs] at hp
  exact hne p.2 hp.1 (by rw [← he]; exact hp.2)

theorem free_space_pow2 {α : Type} (k : Nat) (hk : k < 32) (r : ring α)
    (hsize : r.m_size = 2 ^ k) (hmask : r.m_mask = 2 ^ k - 1) (ht : r.typed)
    (hocc : sub32 r.m_prod.head r.m_cons.tail ≤ r.m_size) :
    (sub32 (add32 r.m_size r.m_cons.tail) r.m_prod.head) &&& r.m_mask =
      (r.m_size - sub32 r.m_prod.head r.m_cons.tail) % r.m_size := by
  obtain ⟨t1, _, _, t4, _, _, t7⟩ := ht
  have hle := pow2_le k hk
  have e : sub32 (add32 r.m_size r.m_cons.tail) r.m_prod.head =
      r.m_size - sub32 r.m_prod.head r.m_cons.tail := by
    unfold sub32 add32 U32 at *
    omega
  rw [e, hmask, Nat.and_pow_two_sub_one_eq_mod, hsize]

theorem granted_le_free {α : Type} (r : ring α) (n : Nat) (behavior : behavior_t)
    (ht : r.typed) (hocc : sub32 r.m_prod.head r.m_cons.tail ≤ r.m_size) :
    granted r n behavior ≤ r.m_size - sub32 r.m_prod.head r.m_cons.tail := by
  obtain ⟨t1, _, _, t4, _, _, t7⟩ := ht
  have e : sub32 (add32 r.m_size r.m_cons.tail) r.m_prod.head =
      r.m_size - sub32 r.m_prod.head r.m_cons.tail := by
    unfold sub32 add32 U32 at *
    omega
  have h : (sub32 (add32 r.m_size r.m_cons.tail) r.m_prod.head) &&& r.m_mask ≤
      sub32 (add32 r.m_size r.m_cons.tail) r.m_prod.head := Nat.and_le_left
  unfold granted
  simp only []
  split
  · split <;> omega
  · omega

/-! ## Occupied slots and the capacity invariant -/

theorem written_ne_occupied {α : Type} (k : Nat) (hk : k < 32) (r : ring α) (n : Nat)
    (behavior : behavior_t) (hsize : r.m_size = 2 ^ k) (hmask : r.m_mask = 2 ^ k - 1)
    (ht : r.typed) (hht : r.m_prod.head = r.m_prod.tail) (hocc : occupied r ≤ r.m_size)
    (i j : Nat) (hi : i < granted r n behavior) (hj : j < occupied r) :
    (add32 r.m_prod.head i) &&& r.m_mask ≠ occupied_slot r j := by
  have hgf := granted_le_free r n behavior ht (by
    unfold occupied at hocc
    rw [hht]
    exact hocc)
  obtain ⟨t1, _, _, t4, t5, _, t7⟩ := ht
  unfold occupied at hocc hj
  rw [hht] at hgf
  have e : add32 r.m_prod.head i = add32 r.m_cons.tail (sub32 r.m_prod.tail r.m_cons.tail + i) := by
    rw [hht]
    unfold add32 sub32 U32 at *
    omega
  intro he
  unfold occupied_slot at he
  rw [e, hmask] at he
  have := slot_inj k r.m_cons.tail _ _ hk (by omega) (by omega) he
  omega

theorem occupied_slots_kept_of_unchanged {α : Type} (r : ring α) :
    occupied_slots_kept r { self := r, ret := 0, stores := [] } := by
  refine ⟨?_, fun _ _ => rfl⟩
  intro p hp
  cases hp

theorem do_enqueue_keeps_occupied {α : Type} (fuel : Nat) (r : ring α) (obj_table : List α)
    (n : Nat) (behavior : behavior_t) (out : outcome α)
    (hrun : do_enqueue fuel r obj_table n behavior = Except.ok out) :
    occupied_slots_kept r out := by
  rw [(do_enqueue_frame fuel r obj_table n behavior out hrun).2]
  exact occupied_slots_kept_of_unchanged r

theorem enqueue_objs_keeps_occupied {α : Type} (k : Nat) (hk : k < 32) (fuel : Nat)
    (r : ring α) (obj_table : List α) (n : Nat) (behavior : behavior_t)
    (hsize : r.m_size = 2 ^ k) (hmask : r.m_mask = 2 ^ k - 1) (ht : r.typed)
    (hht : r.m_prod.head = r.m_prod.tail) (hocc : occupied r ≤ r.m_size)
    (hitems : n ≤ obj_table.length) (hfuel : n ≤ fuel) :
    ∃ r1 stores,
      enqueue_objs fuel r r.m_prod.head obj_table (granted r n behavior) =
        Except.ok (r1, stores) ∧
      occupied_slots_kept r { self := r1, ret := granted r n behavior, stores := stores } := by
  have hgn := granted_le_request r n behavior
  have hgm := granted_le_mask r n behavior
  have hpos : 0 < 2 ^ k := Nat.two_pow_pos k
  obtain ⟨r1, stores, hrun, hst, hfr⟩ := enqueue_objs_post k hk fuel r r.m_prod.head obj_table
    (granted r n behavior) hsize hmask ht.2.2.1 (by omega) (by omega) (by omega)
  refine ⟨r1, stores, hrun, ?_, ?_⟩
  · intro p hp j hj
    simp only [] at hp
    rw [hst, mem_logical_pairs] at hp
    rw [hp.2]
    exact written_ne_occupied k hk r n behavior hsize hmask ht hht hocc p.2 j hp.1 hj
  · intro j hj
    apply hfr
    intro i hi he
    exact written_ne_occupied k hk r n behavior hsize hmask ht hht hocc i j hi hj he.symm

theorem occupied_plus_granted_le {α : Type} (r : ring α) (n : Nat) (behavior : behavior_t)
    (ht : r.typed) (hht : r.m_prod.head = r.m_prod.tail) (hinv : capacity_invariant r) :
    occupied r + granted r n behavior ≤ r.m_size := by
  have hocc : sub32 r.m_prod.head r.m_cons.tail ≤ r.m_size := by
    unfold capacity_invariant occupied at hinv
    rw [hht]
    exact hinv
  have hgf := granted_le_free r n behavior ht hocc
  unfold occupied
  rw [← hht]
  omega

theorem ring_ctor_typed {α : Type} [Inhabited α] (C : Nat) (hC : C < U32) :
    (ring_ctor C : ring α).typed := by
  unfold ring.typed ring_ctor parse_proper_size
  simp only [List.length_replicate]
  exact ⟨hC, sub32_lt _ _, trivial, by unfold U32; omega, by unfold U32; omega,
    by unfold U32; omega, by unfold U32; omega⟩

theorem pow2_lt_U32 (k : Nat) (hk : k < 32) : 2 ^ k < U32 := by
  have := pow2_le k hk
  unfold U32
  omega

theorem free_space_ctor {α : Type} [Inhabited α] (k : Nat) (hk : k < 32) :
    free_space (ring_ctor (2 ^ k) : ring α) = 0 := by
  have hpos : 0 < 2 ^ k := Nat.two_pow_pos k
  have hle := pow2_le k hk
  show (sub32 (add32 (2 ^ k) 0) 0) &&& (sub32 (2 ^ k) 1) = 0
  have e1 : sub32 (add32 (2 ^ k) 0) 0 = 2 ^ k := by
    unfold sub32 add32 U32
    omega
  have e2 : sub32 (2 ^ k) 1 = 2 ^ k - 1 := by
    unfold sub32 U32
    omega
  rw [e1, e2, Nat.and_pow_two_sub_one_eq_mod, Nat.mod_self]

theorem granted_ctor {α : Type} [Inhabited α] (k : Nat) (hk : k < 32) (n : Nat)
    (behavior : behavior_t) : granted (ring_ctor (2 ^ k) : ring α) n behavior = 0 := by
  rw [granted_eq, free_space_ctor k hk]
  split
  · split <;> rfl
  · omega

theorem run_call_ctor {α : Type} [Inhabited α] (k : Nat) (hk : k < 32) (fuel : Nat)
    (c : call α) :
    run_call fuel (ring_ctor (2 ^ k)) c =
      Except.ok { self := ring_ctor (2 ^ k), ret := 0, stores := [] } := by
  cases c with
  | enqueue obj =>
    exact do_enqueue_of_granted_zero fuel _ [obj] 1 behavior_t.FIXED (granted_ctor k hk _ _)
  | enqueue_bulk obj_table n =>
    exact do_enqueue_of_granted_zero fuel _ obj_table n behavior_t.FIXED (granted_ctor k hk _ _)
  | enqueue_burst obj_table n =>
    exact do_enqueue_of_granted_zero fuel _ obj_table n behavior_t.VARIABLE
      (granted_ctor k hk _ _)

theorem run_calls_ctor {α : Type} [Inhabited α] (k : Nat) (hk : k < 32) (fuel : Nat)
    (calls : List (call α)) :
    run_calls fuel (ring_ctor (2 ^ k)) calls =
      Except.ok (ring_ctor (2 ^ k), List.replicate calls.length 0) := by
  induction calls with
  | nil => rfl
  | cons c cs ih =>
    unfold run_calls
    rw [run_call_ctor k hk fuel c]
    simp only [bind, Except.bind, ih]
    rfl

theorem reachable_is_initial {α : Type} [Inhabited α] (k : Nat) (r : ring α)
    (h : reachable k r) : r = ring_ctor (2 ^ k) := by
  induction h with
  | construct => rfl
  | enqueue r fuel obj out _ hrun ih =>
    rw [(do_enqueue_frame fuel r [obj] 1 behavior_t.FIXED out hrun).2]
    exact ih
  | enqueue_bulk r fuel obj_table n out _ hrun ih =>
    rw [(do_enqueue_frame fuel r obj_table n behavior_t.FIXED out hrun).2]
    exact ih
  | enqueue_burst r fuel obj_table n out _ hrun ih =>
    rw [(do_enqueue_frame fuel r obj_table n behavior_t.VARIABLE out hrun).2]
    exact ih

theorem capacity_invariant_ctor {α : Type} [Inhabited α] (C : Nat) :
    capacity_invariant (ring_ctor C : ring α) := by
  unfold capacity_invariant occupied ring_ctor parse_proper_size sub32 U32
  simp

/-! ## Interleavings of `move_prod_head` -/

theorem thread_step_ok {α : Type} (r r1 : ring α) (t t1 : thread_t) (res : Option (Nat × Nat))
    (h : thread_step r t = Except.ok (r1, t1, res)) : r1 = r ∧ res = none := by
  cases t with
  | mk pc n behavior prod_head prod_next =>
    cases pc with
    | read_head =>
      cases h
      exact ⟨rfl, rfl⟩
    | compute =>
      unfold thread_step at h
      simp only [] at h
      generalize (if (sub32 (add32 r.m_size r.m_cons.tail) prod_head) &&& r.m_mask < n then
          (if behavior = behavior_t.FIXED then 0
            else (sub32 (add32 r.m_size r.m_cons.tail) prod_head) &&& r.m_mask)
          else n) = g at h
      by_cases hg : g = 0
      · rw [if_pos hg] at h
        cases h
        exact ⟨rfl, rfl⟩
      · rw [if_neg hg] at h
        cases h
        exact ⟨rfl, rfl⟩
    | cmpset => cases h
    | done =>
      cases h
      exact ⟨rfl, rfl⟩

theorem sched_step_ok {α : Type} (c c1 : config α) (i : Nat)
    (h : sched_step c i = Except.ok c1) : c1.self = c.self ∧ c1.reserved = c.reserved := by
  unfold sched_step at h
  split at h
  · cases h
    exact ⟨rfl, rfl⟩
  · split at h
    · cases h
    · rename_i hstep
      obtain ⟨e1, _⟩ := thread_step_ok _ _ _ _ _ hstep
      cases h
      exact ⟨e1, rfl⟩
    · rename_i hstep
      obtain ⟨_, e2⟩ := thread_step_ok _ _ _ _ _ hstep
      cases e2

theorem run_schedule_ok {α : Type} (schedule : List Nat) :
    ∀ c c1 : config α, run_schedule c schedule = Except.ok c1 →
      c1.self = c.self ∧ c1.reserved = c.reserved := by
  induction schedule with
  | nil =>
    intro c c1 h
    cases h
    exact ⟨rfl, rfl⟩
  | cons i l ih =>
    intro c c1 h
    unfold run_schedule at h
    split at h
    · cases h
    · rename_i c2 hstep
      obtain ⟨a1, a2⟩ := sched_step_ok c c2 i hstep
      obtain ⟨b1, b2⟩ := ih c2 c1 h
      exact ⟨by rw [b1, a1], by rw [b2, a2]⟩

/-! ## Claims -/

/-- C1 (code defect).  On the empty ring of capacity 4 that the constructor
produces, `enqueue_bulk([1,2,3], 3)` returns 0 and leaves the ring as it was,
with no element assignment made, although `3 ≤ 4 - 0` slots are free: the
free-space value of line 162 is masked with `m_mask`, which makes it 0 on an
empty ring. -/
theorem C1_enqueue_bulk_on_empty_ring_returns_zero :
    occupied (ring_ctor 4 : ring Nat) = 0 ∧
      enqueue_bulk 3 (ring_ctor 4) [1, 2, 3] 3 =
        Except.ok { self := ring_ctor 4, ret := 0, stores := [] } := by
  decide

/-- C4 (code defect).  On the empty ring of capacity 4 that the constructor
produces, `enqueue_burst([4,5], 2)` returns 0 and not `min(2, 4 - 0) = 2`,
and it leaves the ring as it was. -/
theorem C4_enqueue_burst_on_empty_ring_returns_zero :
    occupied (ring_ctor 4 : ring Nat) = 0 ∧
      enqueue_burst 2 (ring_ctor 4) [4, 5] 2 =
        Except.ok { self := ring_ctor 4, ret := 0, stores := [] } := by
  decide

/-- C5.  No unconsumed slot is overwritten.  On a ring of power-of-two
capacity `C` with no reservation in flight and `occupied ≤ C`: whenever
`enqueue`, `enqueue_bulk` or `enqueue_burst` returns, no slot
`(consumer.tail + j) & mask` with `j < occupied` has been assigned and each of
these slots holds what it held before; the slots `(h + i) & mask` of the count
that the reservation check grants are all different from the occupied slots;
and the transfer `enqueue_objs` of that count completes, assigns none of the
occupied slots and leaves their content as it was.  All cursor arithmetic is
modulo `2^32`, so the statement covers cursors that wrap. -/
theorem C5_occupied_slots_not_overwritten {α : Type} (k : Nat) (hk : k < 32) (fuel : Nat)
    (r : ring α) (obj : α) (obj_table : List α) (n : Nat)
    (hsize : r.m_size = 2 ^ k) (hmask : r.m_mask = 2 ^ k - 1) (ht : r.typed)
    (hht : r.m_prod.head = r.m_prod.tail) (hocc : occupied r ≤ r.m_size)
    (hitems : n ≤ obj_table.length) (hfuel : n ≤ fuel) :
    (∀ out, enqueue fuel r obj = Except.ok out → occupied_slots_kept r out) ∧
    (∀ out, enqueue_bulk fuel r obj_table n = Except.ok out → occupied_slots_kept r out) ∧
    (∀ out, enqueue_burst fuel r obj_table n = Except.ok out → occupied_slots_kept r out) ∧
    (∀ behavior i j, i < granted r n behavior → j < occupied r →
      (add32 r.m_prod.head i) &&& r.m_mask ≠ occupied_slot r j) ∧
    (∀ behavior, ∃ r1 stores,
      enqueue_objs fuel r r.m_prod.head obj_table (granted r n behavior) =
        Except.ok (r1, stores) ∧
      occupied_slots_kept r
        { self := r1, ret := granted r n behavior, stores := stores }) :=
  ⟨fun out h => do_enqueue_keeps_occupied fuel r [obj] 1 behavior_t.FIXED out h,
    fun out h => do_enqueue_keeps_occupied fuel r obj_table n behavior_t.FIXED out h,
    fun out h => do_enqueue_keeps_occupied fuel r obj_table n behavior_t.VARIABLE out h,
    fun behavior i j hi hj =>
      written_ne_occupied k hk r n behavior hsize hmask ht hht hocc i j hi hj,
    fun behavior =>
      enqueue_objs_keeps_occupied k hk fuel r obj_table n behavior hsize hmask ht hht hocc
        hitems hfuel⟩

/-- Witness for C5: the ring of capacity 4 with one occupied slot and the
producer cursor about to wrap around `2^32`, and a request of two items. -/
theorem C5_occupied_slots_not_overwritten_witness :
    (∀ i j, i < granted ring4_wrapping 2 behavior_t.VARIABLE → j < occupied ring4_wrapping →
      (add32 ring4_wrapping.m_prod.head i) &&& ring4_wrapping.m_mask ≠
        occupied_slot ring4_wrapping j) ∧
    (∃ r1 stores,
      enqueue_objs 2 ring4_wrapping ring4_wrapping.m_prod.head [8, 9]
          (granted ring4_wrapping 2 behavior_t.VARIABLE) = Except.ok (r1, stores) ∧
      occupied_slots_kept ring4_wrapping
        { self := r1, ret := granted ring4_wrapping 2 behavior_t.VARIABLE, stores := stores }) :=
  ⟨(C5_occupied_slots_not_overwritten 2 (by decide) 2 ring4_wrapping 5 [8, 9] 2
      (by decide) (by decide) (by decide) (by decide) (by decide) (by decide)
      (by decide)).2.2.2.1 behavior_t.VARIABLE,
    (C5_occupied_slots_not_overwritten 2 (by decide) 2 ring4_wrapping 5 [8, 9] 2
      (by decide) (by decide) (by decide) (by decide) (by decide) (by decide)
      (by decide)).2.2.2.2 behavior_t.VARIABLE⟩

/-- C6.  Capacity invariant.  `occupied ≤ capacity` holds in the ring that
the constructor produces for a power-of-two capacity; from a state with no
reservation in flight that satisfies it, whenever `enqueue`, `enqueue_bulk`
or `enqueue_burst` returns, the state it leaves satisfies it, and the count
that the reservation check grants never exceeds `capacity - occupied`; and it
holds in every state reachable from construction through these operations.
(`0 ≤ occupied` holds of every natural number.) -/
theorem C6_capacity_invariant {α : Type} [Inhabited α] (k : Nat) (hk : k < 32) :
    capacity_invariant (ring_ctor (2 ^ k) : ring α) ∧
    (∀ (r : ring α) (fuel n : Nat) (obj_table : List α) (obj : α),
      r.m_size = 2 ^ k → r.m_mask = 2 ^ k - 1 → r.typed →
      r.m_prod.head = r.m_prod.tail → capacity_invariant r →
      (∀ out, enqueue fuel r obj = Except.ok out → capacity_invariant out.self) ∧
      (∀ out, enqueue_bulk fuel r obj_table n = Except.ok out →
        capacity_invariant out.self) ∧
      (∀ out, enqueue_burst fuel r obj_table n = Except.ok out →
        capacity_invariant out.self) ∧
      (∀ behavior, occupied r + granted r n behavior ≤ r.m_size)) ∧
    (∀ r : ring α, reachable k r → capacity_invariant r) := by
  have hU := pow2_lt_U32 k hk
  refine ⟨capacity_invariant_ctor _, ?_, ?_⟩
  · intro r fuel n obj_table obj _ _ ht hht hinv
    have step : ∀ (tbl : List α) (m : Nat) (b : behavior_t) (out : outcome α),
        do_enqueue fuel r tbl m b = Except.ok out → capacity_invariant out.self := by
      intro tbl m b out hrun
      rw [(do_enqueue_frame fuel r tbl m b out hrun).2]
      exact hinv
    exact ⟨step [obj] 1 behavior_t.FIXED, step obj_table n behavior_t.FIXED,
      step obj_table n behavior_t.VARIABLE,
      fun behavior => occupied_plus_granted_le r n behavior ht hht hinv⟩
  · intro r hr
    rw [reachable_is_initial k r hr]
    exact capacity_invariant_ctor _

/-- Witness for C6: capacity 4, and a bulk request of two items on the ring
with three of its four slots occupied, which returns. -/
theorem C6_capacity_invariant_witness :
    capacity_invariant (ring_ctor (2 ^ 2) : ring Nat) ∧
    (∃ out, enqueue_bulk 2 ring4_three [4, 5] 2 = Except.ok out ∧
      capacity_invariant out.self) ∧
    occupied ring4_three + granted ring4_three 2 behavior_t.VARIABLE ≤ ring4_three.m_size := by
  have h := @C6_capacity_invariant Nat _ 2 (by decide)
  have h2 := h.2.1 ring4_three 2 2 [4, 5] 0 (by decide) (by decide) (by decide) (by decide)
    (by decide)
  have hrun : enqueue_bulk 2 ring4_three [4, 5] 2 =
      Except.ok { self := ring4_three, ret := 0, stores := [] } := by
    decide
  exact ⟨h.1, ⟨_, hrun, h2.2.1 _ hrun⟩, h2.2.2.2 behavior_t.VARIABLE⟩

/-- C7 (the claim fails).  Constructing with capacity 10, which is not a
power of two, and with capacity 0 does not fail with `InvalidCapacity`: when
the slab can be allocated, both calls produce a ring. -/
theorem C7_construct_invalid_capacity_succeeds :
    (ring_construct true 10 : Except ctor_error (ring Nat)) ≠
        Except.error ctor_error.InvalidCapacity ∧
      (ring_construct true 10 : Except ctor_error (ring Nat)) =
        Except.ok
          { m_size := 10, m_mask := 9, m_buf := List.replicate 10 0,
            m_prod := { head := 0, tail := 0 }, m_cons := { head := 0, tail := 0 } } ∧
      (ring_construct true 0 : Except ctor_error (ring Nat)) =
        Except.ok
          { m_size := 0, m_mask := 4294967295, m_buf := [],
            m_prod := { head := 0, tail := 0 }, m_cons := { head := 0, tail := 0 } } := by
  decide

/-- C7 (amended).  Construction never fails with `InvalidCapacity`, because
the capacity is not validated: for every capacity `C`, zero and values that
are not powers of two included, the call produces a ring whenever the
allocation of the slab succeeds, just as for a power-of-two capacity (for
example with capacity 10 as with capacity 8), and the failure of that
allocation is the only way in which it produces none. -/
theorem C7_construct_never_invalid_capacity {α : Type} [Inhabited α] (heap_ok : Bool)
    (C : Nat) :
    (ring_construct heap_ok C : Except ctor_error (ring α)) ≠
        Except.error ctor_error.InvalidCapacity ∧
    (∃ r : ring α, ring_construct true C = Except.ok r) ∧
    (∃ r : ring α, ring_construct true 8 = Except.ok r) ∧
    (∃ r : ring α, ring_construct true 10 = Except.ok r) ∧
    (ring_construct false C : Except ctor_error (ring α)) =
        Except.error ctor_error.bad_alloc := by
  refine ⟨?_, ⟨ring_ctor C, rfl⟩, ⟨ring_ctor 8, rfl⟩, ⟨ring_ctor 10, rfl⟩, rfl⟩
  cases heap_ok with
  | true =>
    intro h
    cases h
  | false =>
    intro h
    cases h

/-- C8.  Construction post-state and default capacity.  The default
constructor produces the same ring as `ring(4096)`; and for every `uint32_t`
capacity `C`, `ring(C)` has size `C`, mask `C - 1` in `uint32_t` arithmetic
(which is the number `C - 1` when `C ≥ 1`), a slab of `C` elements, and all
four cursors 0, so that `occupied = 0`. -/
theorem C8_constructor_post_state {α : Type} [Inhabited α] (C : Nat) (hC : C < U32) :
    (ring_ctor_default : ring α) = ring_ctor 4096 ∧
    (ring_ctor C : ring α).m_size = C ∧
    (ring_ctor C : ring α).m_mask = sub32 C 1 ∧
    (1 ≤ C → (ring_ctor C : ring α).m_mask = C - 1) ∧
    (ring_ctor C : ring α).m_buf.length = C ∧
    (ring_ctor C : ring α).m_prod = { head := 0, tail := 0 } ∧
    (ring_ctor C : ring α).m_cons = { head := 0, tail := 0 } ∧
    occupied (ring_ctor C : ring α) = 0 := by
  refine ⟨rfl, rfl, rfl, ?_, ?_, rfl, rfl, ?_⟩
  · intro h1
    show sub32 C 1 = C - 1
    unfold sub32 U32 at *
    omega
  · show (List.replicate C default).length = C
    exact List.length_replicate _ _
  · show sub32 0 0 = 0
    unfold sub32 U32
    omega

/-- Witness for C8: capacity 8. -/
theorem C8_constructor_post_state_witness :
    (ring_ctor 8 : ring Nat).m_size = 8 ∧ (ring_ctor 8 : ring Nat).m_mask = 7 ∧
      (ring_ctor 8 : ring Nat).m_buf.length = 8 ∧ occupied (ring_ctor 8 : ring Nat) = 0 :=
  let h := @C8_constructor_post_state Nat _ 8 (by decide)
  ⟨h.2.1, h.2.2.2.1 (by decide), h.2.2.2.2.1, h.2.2.2.2.2.2.2⟩

/-- C9.  `enqueue(item)` is `enqueue_bulk([item], 1)`: from every state and
for every budget the two calls have the same result (the same returned count,
the same final object, the same element assignments, or the same failure to
return); a count returned by `enqueue` is 0 or 1; and `enqueue` either
returns 0 and leaves the object as it was, or ends in the fault of line
168. -/
theorem C9_enqueue_is_bulk_of_one {α : Type} (fuel : Nat) (r : ring α) (obj : α) :
    enqueue fuel r obj = enqueue_bulk fuel r [obj] 1 ∧
    (∀ out, enqueue fuel r obj = Except.ok out → out.ret = 0 ∨ out.ret = 1) ∧
    (enqueue fuel r obj = Except.ok { self := r, ret := 0, stores := [] } ∨
      enqueue fuel r obj = Except.error fault.wild_pointer) := by
  refine ⟨rfl, ?_, do_enqueue_ok_or_fault fuel r [obj] 1 behavior_t.FIXED⟩
  intro out hrun
  rw [(do_enqueue_frame fuel r [obj] 1 behavior_t.FIXED out hrun).2]
  exact Or.inl rfl

/-- Witness for C9: `enqueue` on the full ring of capacity 4, which
returns 0. -/
theorem C9_enqueue_is_bulk_of_one_witness :
    enqueue 0 ring4_full 5 = enqueue_bulk 0 ring4_full [5] 1 ∧
    (∃ out, enqueue 0 ring4_full 5 = Except.ok out ∧ (out.ret = 0 ∨ out.ret = 1)) := by
  have h := C9_enqueue_is_bulk_of_one 0 ring4_full 5
  have hrun : enqueue 0 ring4_full 5 =
      Except.ok { self := ring4_full, ret := 0, stores := [] } := by
    decide
  exact ⟨h.1, ⟨_, hrun, h.2.1 _ hrun⟩⟩

/-- C11.  Bulk transfer equals `n` independent element copies in increasing
logical order.  For a slab of power-of-two capacity `C` with `mask = C - 1`,
every head value `h`, every `n ≤ C` and every source table of at least `n`
items, `enqueue_objs(h, items, n)` completes; its element assignments are
exactly `m_buf[(h + i) & mask] = obj_table[i]` for `i = 0, ..., n - 1` in
this order, whichever path it takes (the unrolled loop with the
fall-through switch, the wraparound path, or the boundary case
`idx + n = C`); afterwards slot `(h + i) & mask` holds `items[i]` for every
`i < n`, every other slot is unchanged, and no other member is touched. -/
theorem C11_enqueue_objs_copies_in_logical_order {α : Type} (k : Nat) (hk : k < 32)
    (fuel : Nat) (r : ring α) (prod_head : Nat) (obj_table : List α) (n : Nat)
    (hsize : r.m_size = 2 ^ k) (hmask : r.m_mask = 2 ^ k - 1)
    (hlen : r.m_buf.length = r.m_size) (hn : n ≤ r.m_size)
    (hitems : n ≤ obj_table.length) (hfuel : n ≤ fuel) :
    ∃ r1 stores, enqueue_objs fuel r prod_head obj_table n = Except.ok (r1, stores) ∧
      stores = (List.range n).map (fun i => ((add32 prod_head i) &&& r.m_mask, i)) ∧
      r1.m_buf = puts obj_table r.m_buf (logical_pairs r.m_mask prod_head n) ∧
      (∀ i, i < n → ∃ v, obj_table[i]? = some v ∧
        r1.m_buf[(add32 prod_head i) &&& r.m_mask]? = some v) ∧
      (∀ idx, (∀ i, i < n → idx ≠ (add32 prod_head i) &&& r.m_mask) →
        r1.m_buf[idx]? = r.m_buf[idx]?) ∧
      r1.m_size = r.m_size ∧ r1.m_mask = r.m_mask ∧ r1.m_prod = r.m_prod ∧
      r1.m_cons = r.m_cons := by
  have hpos : 0 < 2 ^ k := Nat.two_pow_pos k
  have hle := pow2_le k hk
  have hidx : (prod_head &&& r.m_mask) < 2 ^ k := by
    rw [hmask, Nat.and_pow_two_sub_one_eq_mod]
    exact Nat.mod_lt _ hpos
  have hrun := enqueue_objs_runs fuel r prod_head obj_table n (by omega) hlen
    (by unfold U32; omega) hn (by unfold U32; omega) hitems hfuel
  have hphys : physical_pairs r.m_size (prod_head &&& r.m_mask) n =
      logical_pairs r.m_mask prod_head n := by
    rw [hsize, hmask]
    exact physical_eq_logical k prod_head n hk (by omega)
  rw [hphys] at hrun
  refine ⟨_, _, hrun, rfl, rfl, ?_, ?_, rfl, rfl, rfl, rfl⟩
  · intro i hi
    have hi2 : i < obj_table.length := by omega
    refine ⟨obj_table[i], List.getElem?_eq_getElem hi2, ?_⟩
    have hw := puts_written obj_table (logical_pairs r.m_mask prod_head n) r.m_buf
      (by rw [hmask]; exact logical_pairs_nodup k _ _ hk (by omega))
      (by
        intro p hp
        rw [mem_logical_pairs] at hp
        rw [hp.2, hmask, hlen, hsize]
        exact slot_lt k _ _)
      (by
        intro p hp
        rw [mem_logical_pairs] at hp
        omega)
      ((add32 prod_head i) &&& r.m_mask, i)
      (by rw [mem_logical_pairs]; exact ⟨hi, rfl⟩)
    simp only [] at hw
    rw [hw, List.getElem?_eq_getElem hi2]
  · intro idx hne
    apply puts_frame
    intro p hp he
    rw [mem_logical_pairs] at hp
    exact hne p.2 hp.1 (by rw [← he]; exact hp.2)

/-- Witness for C11: the contiguous path with seven items (one group of four
and a remainder of three), the wraparound path, and the boundary case
`idx + n = C`. -/
theorem C11_enqueue_objs_copies_in_logical_order_witness :
    (∃ r1 stores, enqueue_objs 7 ring8_blank 0 [1, 2, 3, 4, 5, 6, 7] 7 = Except.ok (r1, stores) ∧
      stores = (List.range 7).map (fun i => ((add32 0 i) &&& ring8_blank.m_mask, i))) ∧
    (∃ r1 stores, enqueue_objs 3 ring4_one 3 [4, 5, 6] 3 = Except.ok (r1, stores) ∧
      stores = (List.range 3).map (fun i => ((add32 3 i) &&& ring4_one.m_mask, i))) ∧
    (∃ r1 stores, enqueue_objs 3 ring4_one 1 [4, 5, 6] 3 = Except.ok (r1, stores) ∧
      stores = (List.range 3).map (fun i => ((add32 1 i) &&& ring4_one.m_mask, i))) := by
  refine ⟨?_, ?_, ?_⟩
  · obtain ⟨r1, st, h1, h2, _⟩ :=
      C11_enqueue_objs_copies_in_logical_order 3 (by decide) 7 ring8_blank 0
        [1, 2, 3, 4, 5, 6, 7] 7 (by decide) (by decide) (by decide) (by decide) (by decide)
        (by decide)
    exact ⟨r1, st, h1, h2⟩
  · obtain ⟨r1, st, h1, h2, _⟩ :=
      C11_enqueue_objs_copies_in_logical_order 2 (by decide) 3 ring4_one 3
        [4, 5, 6] 3 (by decide) (by decide) (by decide) (by decide) (by decide) (by decide)
    exact ⟨r1, st, h1, h2⟩
  · obtain ⟨r1, st, h1, h2, _⟩ :=
      C11_enqueue_objs_copies_in_logical_order 2 (by decide) 3 ring4_one 1
        [4, 5, 6] 3 (by decide) (by decide) (by decide) (by decide) (by decide) (by decide)
    exact ⟨r1, st, h1, h2⟩

/-- C12 (code defect).  On the empty ring of capacity 4 that the constructor
produces, `(h - consumer.tail) mod 2^32 = 0 ≤ 4`, and the free-space value
that `move_prod_head` computes is 0, not `4 - 0 = 4`; with
`producer.head = producer.tail`, `occupied + free` is 0 and not the capacity.
On the ring of capacity 4 with one occupied slot the value is `4 - 1 = 3`. -/
theorem C12_free_space_on_empty_ring_is_zero :
    sub32 (ring_ctor 4 : ring Nat).m_prod.head (ring_ctor 4 : ring Nat).m_cons.tail = 0 ∧
      free_space (ring_ctor 4 : ring Nat) = 0 ∧
      occupied (ring_ctor 4 : ring Nat) + free_space (ring_ctor 4 : ring Nat) ≠
        (ring_ctor 4 : ring Nat).m_size ∧
      free_space ring4_one = 3 := by
  decide

/-- C14.  Mask indexing.  With the mask that `parse_proper_size` sets for a
power-of-two capacity `C = 2^k`, which is `C - 1`, the slot index `x & mask`
of every 32-bit counter value `x` lies in `[0, C)` and equals `x mod C`; the
successor of `x` in `uint32_t` arithmetic maps to the successor slot modulo
`C`, also when `x` wraps from `2^32 - 1` (slot `C - 1`) to 0 (slot 0). -/
theorem C14_mask_indexing {α : Type} (k : Nat) (hk : k < 32) (r : ring α) (x : Nat)
    (hx : x < U32) :
    (parse_proper_size r (2 ^ k)).m_mask = 2 ^ k - 1 ∧
    x &&& (parse_proper_size r (2 ^ k)).m_mask < 2 ^ k ∧
    x &&& (parse_proper_size r (2 ^ k)).m_mask = x % 2 ^ k ∧
    (add32 x 1) &&& (parse_proper_size r (2 ^ k)).m_mask =
      ((x &&& (parse_proper_size r (2 ^ k)).m_mask) + 1) % 2 ^ k ∧
    (add32 x 1 = x + 1 ∨ (x = 4294967295 ∧ add32 x 1 = 0)) ∧
    4294967295 &&& (parse_proper_size r (2 ^ k)).m_mask = 2 ^ k - 1 ∧
    (add32 4294967295 1) &&& (parse_proper_size r (2 ^ k)).m_mask = 0 := by
  have hpos : 0 < 2 ^ k := Nat.two_pow_pos k
  have hle := pow2_le k hk
  have hm : (parse_proper_size r (2 ^ k)).m_mask = 2 ^ k - 1 := by
    show sub32 (2 ^ k) 1 = 2 ^ k - 1
    unfold sub32 U32
    omega
  rw [hm]
  refine ⟨rfl, ?_, Nat.and_pow_two_sub_one_eq_mod x k, ?_, ?_, ?_, ?_⟩
  · rw [Nat.and_pow_two_sub_one_eq_mod]
    exact Nat.mod_lt _ hpos
  · rw [slot_eq k x 1 hk, Nat.and_pow_two_sub_one_eq_mod]
  · unfold add32 U32 at *
    omega
  · rw [Nat.land_comm]
    have h := Nat.and_pow_two_sub_one_eq_mod (2 ^ k - 1) 32
    norm_num at h
    rw [h]
    exact Nat.mod_eq_of_lt (by omega)
  · have e : add32 4294967295 1 = 0 := by decide
    rw [e]
    exact Nat.zero_and _

/-- Witness for C14: capacity 4 and the largest counter value. -/
theorem C14_mask_indexing_witness :
    4294967295 &&& (parse_proper_size ring4_one (2 ^ 2)).m_mask = 4294967295 % 2 ^ 2 ∧
    (add32 4294967295 1) &&& (parse_proper_size ring4_one (2 ^ 2)).m_mask =
      ((4294967295 &&& (parse_proper_size ring4_one (2 ^ 2)).m_mask) + 1) % 2 ^ 2 :=
  ⟨(C14_mask_indexing 2 (by decide) ring4_one 4294967295 (by decide)).2.2.1,
    (C14_mask_indexing 2 (by decide) ring4_one 4294967295 (by decide)).2.2.2.1⟩

/-- C16.  From the ring that the constructor produces for a power-of-two
capacity, every finite sequence of `enqueue`, `enqueue_bulk` and
`enqueue_burst` calls, with any items and any counts, completes, returns 0
on every call and ends in the initial state, in which all four cursors are
0 and the slab is as allocated; the initial state is the only state
reachable through the implemented operations. -/
theorem C16_only_initial_state_reachable {α : Type} [Inhabited α] (k : Nat) (hk : k < 32) :
    (∀ (fuel : Nat) (calls : List (call α)),
      run_calls fuel (ring_ctor (2 ^ k)) calls =
        Except.ok (ring_ctor (2 ^ k), List.replicate calls.length 0)) ∧
    (∀ r : ring α, reachable k r → r = ring_ctor (2 ^ k)) ∧
    (ring_ctor (2 ^ k) : ring α).m_prod = { head := 0, tail := 0 } ∧
    (ring_ctor (2 ^ k) : ring α).m_cons = { head := 0, tail := 0 } ∧
    (ring_ctor (2 ^ k) : ring α).m_buf = List.replicate (2 ^ k) default :=
  ⟨fun fuel calls => run_calls_ctor k hk fuel calls,
    fun r h => reachable_is_initial k r h, rfl, rfl, rfl⟩

/-- Witness for C16: three calls on a new ring of capacity 4. -/
theorem C16_only_initial_state_reachable_witness :
    run_calls 3 (ring_ctor (2 ^ 2) : ring Nat)
        [call.enqueue_bulk [1, 2, 3] 3, call.enqueue_burst [4, 5] 2, call.enqueue 6] =
      Except.ok (ring_ctor (2 ^ 2), List.replicate 3 0) :=
  (@C16_only_initial_state_reachable Nat _ 2 (by decide)).1 3
    [call.enqueue_bulk [1, 2, 3] 3, call.enqueue_burst [4, 5] 2, call.enqueue 6]

/-- C17.  Characterisation of the computed free space.  On a ring of
power-of-two capacity `C`, with `d = (producer.head - consumer.tail) mod 2^32`:
if `d ≤ C`, the free-space value that `move_prod_head` computes is `C - d`
when `1 ≤ d` and 0 when `d = 0`; in every state it is at most `C - 1`, a
count that `move_prod_head` returns is at most `min(n, C - 1)`, as is the
count that its check of lines 162-164 settles on, and
`enqueue_bulk(items, C)` returns 0 and changes nothing. -/
theorem C17_free_space_characterised {α : Type} (k : Nat) (hk : k < 32) (r : ring α)
    (hsize : r.m_size = 2 ^ k) (hmask : r.m_mask = 2 ^ k - 1) (ht : r.typed) :
    (sub32 r.m_prod.head r.m_cons.tail ≤ r.m_size →
      (1 ≤ sub32 r.m_prod.head r.m_cons.tail →
        free_space r = r.m_size - sub32 r.m_prod.head r.m_cons.tail) ∧
      (sub32 r.m_prod.head r.m_cons.tail = 0 → free_space r = 0)) ∧
    free_space r ≤ r.m_size - 1 ∧
    ((∀ fuel n p0 p1 behavior res,
        move_prod_head fuel r n p0 p1 behavior = Except.ok res →
        res.2.1 ≤ min n (r.m_size - 1)) ∧
      (∀ n behavior, granted r n behavior ≤ min n (r.m_size - 1))) ∧
    (∀ fuel obj_table,
      enqueue_bulk fuel r obj_table r.m_size =
        Except.ok { self := r, ret := 0, stores := [] }) := by
  have hpos : 0 < 2 ^ k := Nat.two_pow_pos k
  have hfm := free_space_le_mask r
  refine ⟨?_, by omega, ⟨?_, ?_⟩, ?_⟩
  · intro hd
    have hfs := free_space_pow2 k hk r hsize hmask ht hd
    refine ⟨?_, ?_⟩
    · intro h1
      show (sub32 (add32 r.m_size r.m_cons.tail) r.m_prod.head) &&& r.m_mask = _
      rw [hfs]
      exact Nat.mod_eq_of_lt (by omega)
    · intro h0
      show (sub32 (add32 r.m_size r.m_cons.tail) r.m_prod.head) &&& r.m_mask = _
      rw [hfs, h0, Nat.sub_zero, Nat.mod_self]
  · intro fuel n p0 p1 behavior res hrun
    rw [move_prod_head_runs] at hrun
    split at hrun
    · cases hrun
      exact Nat.zero_le _
    · cases hrun
  · intro n behavior
    have h1 := granted_le_request r n behavior
    have h2 := granted_le_mask r n behavior
    have h3 : granted r n behavior ≤ r.m_size - 1 := by omega
    exact Nat.le_min.mpr ⟨h1, h3⟩
  · intro fuel obj_table
    apply do_enqueue_of_granted_zero
    rw [granted_eq, if_pos (by omega)]
    rfl

/-- Witness for C17: the ring of capacity 4 with one occupied slot, where
the free space is `4 - 1`. -/
theorem C17_free_space_characterised_witness :
    free_space ring4_one = ring4_one.m_size - sub32 ring4_one.m_prod.head ring4_one.m_cons.tail ∧
    enqueue_bulk 0 ring4_one [1, 2, 3, 4] ring4_one.m_size =
      Except.ok { self := ring4_one, ret := 0, stores := [] } :=
  ⟨((C17_free_space_characterised 2 (by decide) ring4_one (by decide) (by decide)
      (by decide)).1 (by decide)).1 (by decide),
    (C17_free_space_characterised 2 (by decide) ring4_one (by decide) (by decide)
      (by decide)).2.2.2 0 [1, 2, 3, 4]⟩

theorem logical_pairs_in_bounds (k : Nat) (h n m : Nat) (hnm : n ≤ m) :
    stores_in_bounds (2 ^ k) m (logical_pairs (2 ^ k - 1) h n) := by
  intro p hp
  rw [mem_logical_pairs] at hp
  refine ⟨?_, by omega⟩
  rw [hp.2]
  exact slot_lt k _ _

/-- C18.  Every index used by an enqueue is in bounds.  On a ring of
power-of-two capacity `C`, for every requested count `n` and every source
table of `n` items: whenever `enqueue_bulk(items, n)` or
`enqueue_burst(items, n)` returns, every element assignment it has made
writes a slab index `< C` and reads a source index `< n`; the count that the
reservation check settles on, which is the count handed to `enqueue_objs`, is
at most `C`, and with it the sum `idx + n` of the branch test of
`enqueue_objs` does not overflow 32 bits; and `enqueue_objs` with that count
completes without an access outside the slab or the source, all its
assignments being in bounds. -/
theorem C18_enqueue_indices_in_bounds {α : Type} (k : Nat) (hk : k < 32) (fuel : Nat)
    (r : ring α) (obj_table : List α) (n : Nat)
    (hsize : r.m_size = 2 ^ k) (hmask : r.m_mask = 2 ^ k - 1) (ht : r.typed)
    (hitems : obj_table.length = n) (hfuel : n ≤ fuel) :
    (∀ out, enqueue_bulk fuel r obj_table n = Except.ok out →
      stores_in_bounds r.m_size n out.stores) ∧
    (∀ out, enqueue_burst fuel r obj_table n = Except.ok out →
      stores_in_bounds r.m_size n out.stores) ∧
    (∀ behavior, granted r n behavior ≤ r.m_size ∧
      (r.m_prod.head &&& r.m_mask) + granted r n behavior < U32 ∧
      add32 (r.m_prod.head &&& r.m_mask) (granted r n behavior) =
        (r.m_prod.head &&& r.m_mask) + granted r n behavior) ∧
    (∀ behavior, ∃ r1 stores,
      enqueue_objs fuel r r.m_prod.head obj_table (granted r n behavior) =
        Except.ok (r1, stores) ∧
      stores_in_bounds r.m_size n stores) := by
  have hpos : 0 < 2 ^ k := Nat.two_pow_pos k
  have hle := pow2_le k hk
  have hidx : (r.m_prod.head &&& r.m_mask) < 2 ^ k := by
    rw [hmask, Nat.and_pow_two_sub_one_eq_mod]
    exact Nat.mod_lt _ hpos
  have hnone : ∀ (b : behavior_t) (out : outcome α),
      do_enqueue fuel r obj_table n b = Except.ok out →
      stores_in_bounds r.m_size n out.stores := by
    intro b out hrun
    rw [(do_enqueue_frame fuel r obj_table n b out hrun).2]
    intro p hp
    cases hp
  refine ⟨hnone behavior_t.FIXED, hnone behavior_t.VARIABLE, ?_, ?_⟩
  · intro behavior
    have hgm := granted_le_mask r n behavior
    have hsum : (r.m_prod.head &&& r.m_mask) + granted r n behavior < U32 := by
      unfold U32
      omega
    exact ⟨by omega, hsum, add32_small _ _ hsum⟩
  · intro behavior
    have hgn := granted_le_request r n behavior
    have hgm := granted_le_mask r n behavior
    obtain ⟨r1, stores, hrun, hst, _⟩ := enqueue_objs_post k hk fuel r r.m_prod.head
      obj_table (granted r n behavior) hsize hmask ht.2.2.1 (by omega) (by omega) (by omega)
    refine ⟨r1, stores, hrun, ?_⟩
    rw [hst, hsize, hmask]
    exact logical_pairs_in_bounds k _ _ _ hgn

/-- Witness for C18: two items offered to the ring of capacity 4 whose
producer cursor is about to wrap around `2^32`. -/
theorem C18_enqueue_indices_in_bounds_witness :
    granted ring4_wrapping 2 behavior_t.VARIABLE ≤ ring4_wrapping.m_size ∧
    (∃ r1 stores,
      enqueue_objs 2 ring4_wrapping ring4_wrapping.m_prod.head [8, 9]
          (granted ring4_wrapping 2 behavior_t.VARIABLE) = Except.ok (r1, stores) ∧
      stores_in_bounds ring4_wrapping.m_size 2 stores) := by
  have h := C18_enqueue_indices_in_bounds 2 (by decide) 2 ring4_wrapping [8, 9] 2
    (by decide) (by decide) (by decide) (by decide) (by decide)
  exact ⟨(h.2.2.1 behavior_t.VARIABLE).1, h.2.2.2 behavior_t.VARIABLE⟩

end RingBuffer
